import Mathlib

/-!
Verification development for the energy-forecast pipeline, covering the
Bronze-to-Silver cleaners, the Silver-to-Gold canonical merger, the monthly
Gold compactor, the time-series data splitter, the XGBoost feature strategy
and the next-hour predictor.

Modelling conventions:
* a pandas table column is a `List (Option Rat)`; `none` models a NaN cell;
* hourly datetimes are natural numbers (hours since an epoch), so the
  UTC-to-UTC+7 conversion of the cleaners is `+ 7`;
* S3 object keys are plain strings; an S3 bucket is an association list
  from keys to tables;
* third-party library operations (pandas interpolate/ffill/bfill/median,
  rolling windows, merge, sort_values) are embedded with their documented
  semantics at the call sites the code uses.
-/

/-! ## Shared column operations -/

/-- Forward fill with a running accumulator: pandas `fillna(method=ffill)`
replaces each NaN with the most recent valid value; leading NaNs survive when
no prior valid value exists, hence the `Option` accumulator. -/
def ffillFrom (acc : Option ℚ) : List (Option ℚ) → List (Option ℚ)
  | [] => []
  | none :: rest => acc :: ffillFrom acc rest
  | some v :: rest => some v :: ffillFrom (some v) rest

/-- pandas `Series.fillna(method='ffill')`. -/
def ffill (xs : List (Option ℚ)) : List (Option ℚ) := ffillFrom none xs

/-- pandas `Series.fillna(method='bfill')`: each NaN takes the next valid
value; realised as forward fill on the reversed column. -/
def bfill (xs : List (Option ℚ)) : List (Option ℚ) := (ffillFrom none xs.reverse).reverse

/-- pandas `Series.median()`: the NaN entries are skipped; with an odd number
of valid values the middle one is returned, with an even number the two middle
values are averaged; an all-NaN column has a NaN median. -/
def medianQ (xs : List (Option ℚ)) : Option ℚ :=
  let vals := (xs.filterMap id).insertionSort (· ≤ ·)
  let n := vals.length
  if n = 0 then none
  else if n % 2 = 1 then vals.getD (n / 2) 0
  else some ((vals.getD (n / 2 - 1) 0 + vals.getD (n / 2) 0) / 2)

/-- Shared shape of `_handle_missing_values` in both cleaners, for one column
whose name matches neither `percentage` nor `ratio` (so the remaining-NaN
branch fills with the median): when the column has any NaN, forward fill, then
backward fill, then fill anything that remains with the median of the column
at that point.  After ffill and bfill a NaN remains only when the column is
entirely NaN, in which case the median is NaN as well and `fillna` keeps the
column unchanged. -/
def handleMissingCol (xs : List (Option ℚ)) : List (Option ℚ) :=
  if xs.any (·.isNone) then
    let filled := bfill (ffill xs)
    if filled.any (·.isNone) then
      match medianQ filled with
      | none => filled
      | some m => filled.map (fun x => some (x.getD m))
    else filled
  else xs

/-! ## WeatherCleaner (services/processing/src/etl/weather_cleaner.py) -/

/-- One entry of the raw Visual Crossing `days[0].hours` array after
`pd.DataFrame(hours)` and the datetime assembly of
`WeatherCleaner._parse_json`: `dt` is the timestamp built from
`query_date + ' ' + hours[i].datetime`, in hours since the epoch; the five
numeric fields are nullable (a parse failure or missing key is a NaN). -/
structure WRow where
  dt : Nat
  temp : Option ℚ
  humidity : Option ℚ
  precip : Option ℚ
  windspeed : Option ℚ
  cloudcover : Option ℚ
deriving DecidableEq

/-- The raw weather JSON document: `{"days": [{"hours": [...]}, ...]}`.  Only
`days[0].hours` is ever read by the cleaner. -/
structure WeatherRaw where
  days : List (List WRow)
deriving DecidableEq

/-- `WeatherCleaner._parse_json`: error when `days` is empty or the first day
has no `hours`; otherwise one row per hour entry. -/
def WeatherCleaner.parseJson (raw : WeatherRaw) : Except String (List WRow) :=
  match raw.days with
  | [] => .error "No days field in raw data"
  | day0 :: _ =>
    match day0 with
    | [] => .error "No hours field in day data"
    | hours => .ok hours

/-- `WeatherCleaner._convert_timezone`: localize to UTC, convert to UTC+7,
drop the timezone; on hour timestamps this is adding 7 hours. -/
def WeatherCleaner.convertTz (rows : List WRow) : List WRow :=
  rows.map (fun r => { r with dt := r.dt + 7 })

/-- Rebuild weather rows from recomputed columns (the columnar assignments
`df[col] = ...` of the cleaner zip the new column values back by position). -/
def rebuildW : List WRow → List (Option ℚ) → List (Option ℚ) → List (Option ℚ) →
    List (Option ℚ) → List (Option ℚ) → List WRow
  | r :: rs, t :: ts, h :: hs, p :: ps, w :: ws, c :: cs =>
    { r with temp := t, humidity := h, precip := p, windspeed := w, cloudcover := c }
      :: rebuildW rs ts hs ps ws cs
  | _, _, _, _, _, _ => []

/-- `WeatherCleaner._handle_missing_values`: for each of the five numeric
columns with a positive missing ratio, ffill, bfill, then median fill. -/
def WeatherCleaner.handleMissing (rows : List WRow) : List WRow :=
  rebuildW rows
    (handleMissingCol (rows.map (·.temp)))
    (handleMissingCol (rows.map (·.humidity)))
    (handleMissingCol (rows.map (·.precip)))
    (handleMissingCol (rows.map (·.windspeed)))
    (handleMissingCol (rows.map (·.cloudcover)))

/-- Whether a cell is strictly outside `[lo, hi]`; a NaN cell is never an
outlier here because pandas comparisons with NaN are `False`. -/
def outOfRange (x : Option ℚ) (lo hi : ℚ) : Bool :=
  match x with
  | none => false
  | some v => decide (v < lo) || decide (hi < v)

/-- The hardcoded reasonable ranges of `WeatherCleaner._remove_outliers`,
in the iteration order of the source dictionary. -/
def weatherRanges : List ((WRow → Option ℚ) × ℚ × ℚ) :=
  [(WRow.temp, 15, 40), (WRow.humidity, 30, 100), (WRow.windspeed, 0, 50),
   (WRow.cloudcover, 0, 100), (WRow.precip, 0, 100)]

/-- `WeatherCleaner._remove_outliers`: for each range in turn, drop every row
whose value for that column is outside the range (`df = df[~outliers]`). -/
def WeatherCleaner.removeOutliers (rows : List WRow) : List WRow :=
  weatherRanges.foldl
    (fun acc rg => acc.filter (fun row => ! outOfRange (rg.1 row) rg.2.1 rg.2.2)) rows

/-- A Silver weather row after `_standardize_columns` and `_add_metadata`:
renamed business columns plus the metadata added by the cleaner (the
`processed_at` wall-clock column, which no later stage reads, is omitted). -/
structure WSilverRow where
  dt : Nat
  temperature : Option ℚ
  humidity : Option ℚ
  precipitation : Option ℚ
  wind_speed : Option ℚ
  cloud_cover : Option ℚ
  source : String
  query_date : String
deriving DecidableEq

/-- `WeatherCleaner._standardize_columns` composed with `_add_metadata`. -/
def WeatherCleaner.standardize (query_date : String) (r : WRow) : WSilverRow :=
  { dt := r.dt, temperature := r.temp, humidity := r.humidity,
    precipitation := r.precip, wind_speed := r.windspeed,
    cloud_cover := r.cloudcover, source := "visual_crossing",
    query_date := query_date }

/-- `WeatherCleaner.clean`: parse, convert timezone, handle missing values,
remove outliers, standardize columns, add metadata. -/
def WeatherCleaner.clean (raw : WeatherRaw) (query_date : String) :
    Except String (List WSilverRow) := do
  let parsed ← WeatherCleaner.parseJson raw
  let tz := WeatherCleaner.convertTz parsed
  let handled := WeatherCleaner.handleMissing tz
  let filtered := WeatherCleaner.removeOutliers handled
  .ok (filtered.map (WeatherCleaner.standardize query_date))

/-! ## ElectricityCleaner (services/processing/src/etl/electricity_cleaner.py) -/

/-- One record of the raw electricity-maps payload for the `total_load`
signal family: a datetime plus the nullable numeric load value column. -/
structure ERow where
  dt : Nat
  total_load : Option ℚ
deriving DecidableEq

/-- The raw electricity JSON document: the records live under `history` when
present, otherwise under `data`; any other shape is a parse error. -/
structure ElectricityRaw where
  history : Option (List ERow)
  data : Option (List ERow)
deriving DecidableEq

/-- `ElectricityCleaner._parse_json`: prefer `history`, fall back to `data`,
error otherwise (the error message names the signal); an empty record list is
not an error and yields an empty table. -/
def ElectricityCleaner.parseJson (raw : ElectricityRaw) (signal_name : String) :
    Except String (List ERow) :=
  match raw.history with
  | some l => .ok l
  | none =>
    match raw.data with
    | some l => .ok l
    | none => .error ("Unknown data structure for " ++ signal_name)

/-- A Silver electricity row: the cleaned record plus the metadata columns
added by `_add_metadata` (again omitting the wall-clock `processed_at`). -/
structure ESilverRow where
  dt : Nat
  total_load : Option ℚ
  signal : String
  source : String
  query_date : String
deriving DecidableEq

/-- Rebuild electricity rows from a recomputed `total_load` column. -/
def rebuildE : List ERow → List (Option ℚ) → List ERow
  | r :: rs, v :: vs => { r with total_load := v } :: rebuildE rs vs
  | _, _ => []

/-- `ElectricityCleaner.clean`: parse, convert timezone (add 7 hours), handle
missing values on the numeric column (ffill, bfill, median — the column name
`total_load` matches neither `percentage` nor `ratio`, so the zero-fill
branch is dead), add metadata.  The signal name is threaded into the parse
error message and the `signal` metadata column only. -/
def ElectricityCleaner.clean (raw : ElectricityRaw) (signal_name query_date : String) :
    Except String (List ESilverRow) := do
  let parsed ← ElectricityCleaner.parseJson raw signal_name
  let tz := parsed.map (fun r => { r with dt := r.dt + 7 })
  let handled := rebuildE tz (handleMissingCol (tz.map (·.total_load)))
  .ok (handled.map (fun r =>
    { dt := r.dt, total_load := r.total_load, signal := signal_name,
      source := "electricity_maps", query_date := query_date }))

/-- `Config.ELECTRICITY_SIGNALS` (services/processing/src/config.py): the
processing service requests only the `total_load` signal. -/
def Config.ELECTRICITY_SIGNALS : List String := ["total_load"]

/-! ## The pandas interpolation used by CanonicalMerger

`CanonicalMerger._impute_missing` calls
`Series.interpolate(method='linear', limit=3, limit_direction='both')`.
Its documented semantics, embedded below: the linear interpolation value of a
NaN position is taken between the nearest valid values on each side (clamped
to the nearest valid value when one side has none, as `np.interp` does), and a
NaN is actually replaced only when some valid value lies within `limit`
positions of it on at least one side; with no valid value within `limit` in
either direction the NaN is preserved. -/

/-- Greatest index `j ≤ i` holding a valid (non-NaN) value. -/
def lastValidIdx (xs : List (Option ℚ)) : Nat → Option Nat
  | 0 => if (xs.getD 0 none).isSome then some 0 else none
  | i + 1 => if (xs.getD (i + 1) none).isSome then some (i + 1) else lastValidIdx xs i

/-- Least index `j` with `i ≤ j < xs.length` holding a valid value. -/
def nextValidIdx (xs : List (Option ℚ)) (i : Nat) : Option Nat :=
  if h : i < xs.length then
    if (xs.getD i none).isSome then some i else nextValidIdx xs (i + 1)
  else none
termination_by xs.length - i

/-- Whether some index in `[lo, hi]` holds a valid value. -/
def hasValidBetween (xs : List (Option ℚ)) (lo hi : Nat) : Bool :=
  (List.range xs.length).any (fun j => lo ≤ j && j ≤ hi && (xs.getD j none).isSome)

/-- The value of a valid cell (defaulting an invalid read to 0; only used at
indices known to be valid). -/
def validValAt (xs : List (Option ℚ)) (j : Nat) : ℚ := (xs.getD j none).getD 0

/-- The `np.interp` value at index `i`: linear between the surrounding valid
samples, clamped to the nearest valid value beyond the first or last sample. -/
def npInterpAt (xs : List (Option ℚ)) (i : Nat) : Option ℚ :=
  match lastValidIdx xs i, nextValidIdx xs i with
  | some j, some k =>
    if j = k then some (validValAt xs j)
    else some (validValAt xs j +
      (validValAt xs k - validValAt xs j) * ((i : ℚ) - (j : ℚ)) / ((k : ℚ) - (j : ℚ)))
  | some j, none => some (validValAt xs j)
  | none, some k => some (validValAt xs k)
  | none, none => none

/-- One cell of `Series.interpolate(method='linear', limit=limit,
limit_direction='both')`: a valid cell is kept; a NaN cell is preserved
exactly when no valid value exists within `limit` positions on either side,
and otherwise receives its `np.interp` value. -/
def pdInterpolateAt (limit : Nat) (xs : List (Option ℚ)) (i : Nat) : Option ℚ :=
  match xs.getD i none with
  | some v => some v
  | none =>
    if !(hasValidBetween xs (i - limit) i) && !(hasValidBetween xs i (i + limit)) then none
    else npInterpAt xs i

/-- `Series.interpolate(method='linear', limit=limit,
limit_direction='both')`, cell by cell. -/
def pdInterpolate (limit : Nat) (xs : List (Option ℚ)) : List (Option ℚ) :=
  (List.range xs.length).map (pdInterpolateAt limit xs)

/-! ## CanonicalMerger (services/processing/src/etl/canonical_merger.py) -/

/-- A row of the inner-joined weather-and-electricity frame.  The metadata
string columns of the two Silver inputs (source, query_date, signal), which
the join suffixes and `_finalize` discards unread, are omitted. -/
structure MRow where
  dt : Nat
  temperature : Option ℚ
  humidity : Option ℚ
  precipitation : Option ℚ
  wind_speed : Option ℚ
  cloud_cover : Option ℚ
  total_load : Option ℚ
deriving DecidableEq

/-- A row after `_rename_business` (`total_load` becomes
`electricity_demand`); all later merger steps act on this shape. -/
structure CanonRow where
  dt : Nat
  electricity_demand : Option ℚ
  temperature : Option ℚ
  humidity : Option ℚ
  precipitation : Option ℚ
  wind_speed : Option ℚ
  cloud_cover : Option ℚ
deriving DecidableEq

/-- A finalized canonical row: `_finalize` selects exactly
`[datetime, electricity_demand, temperature, humidity, wind_speed,
precipitation]`, dropping `cloud_cover` and the metadata. -/
structure FinalRow where
  dt : Nat
  electricity_demand : Option ℚ
  temperature : Option ℚ
  humidity : Option ℚ
  wind_speed : Option ℚ
  precipitation : Option ℚ
deriving DecidableEq

/-- `CanonicalMerger._time_alignment`: parse datetimes (identity here) and
sort each table ascending by datetime.  pandas `sort_values` leaves the order
of rows with equal keys unspecified; a stable insertion sort is one of the
permitted realisations. -/
def CanonicalMerger.alignW (rows : List WSilverRow) : List WSilverRow :=
  rows.insertionSort (fun a b => a.dt ≤ b.dt)

/-- Datetime sort of the electricity Silver table, as in `_time_alignment`. -/
def CanonicalMerger.alignE (rows : List ESilverRow) : List ESilverRow :=
  rows.insertionSort (fun a b => a.dt ≤ b.dt)

/-- `CanonicalMerger._merge_tables`: `pd.merge(weather, electricity,
on='datetime', how='inner')` — one output row per matching pair, ordered by
the left (weather) rows and, within one weather row, by the matching
electricity rows. -/
def CanonicalMerger.mergeTables (weather : List WSilverRow) (elec : List ESilverRow) :
    List MRow :=
  weather.flatMap (fun w =>
    (elec.filter (fun e => e.dt == w.dt)).map (fun e =>
      { dt := w.dt, temperature := w.temperature, humidity := w.humidity,
        precipitation := w.precipitation, wind_speed := w.wind_speed,
        cloud_cover := w.cloud_cover, total_load := e.total_load }))

/-- `CanonicalMerger._rename_business`: rename `total_load` to
`electricity_demand`. -/
def CanonicalMerger.renameBusiness (r : MRow) : CanonRow :=
  { dt := r.dt, electricity_demand := r.total_load, temperature := r.temperature,
    humidity := r.humidity, precipitation := r.precipitation,
    wind_speed := r.wind_speed, cloud_cover := r.cloud_cover }

/-- One column pass of `CanonicalMerger._impute_missing`: skipped when the
column has no missing value; otherwise linear interpolation with `limit=3`,
`limit_direction='both'`, then forward fill, then backward fill. -/
def imputeCol (xs : List (Option ℚ)) : List (Option ℚ) :=
  if xs.any (·.isNone) then bfill (ffill (pdInterpolate 3 xs)) else xs

/-- Rebuild canonical rows from the five recomputed business columns
(`cloud_cover` is not in the numeric column list of `_impute_missing` and is
left untouched). -/
def rebuildC : List CanonRow → List (Option ℚ) → List (Option ℚ) → List (Option ℚ) →
    List (Option ℚ) → List (Option ℚ) → List CanonRow
  | r :: rs, e :: es, t :: ts, h :: hs, w :: ws, p :: ps =>
    { r with
        electricity_demand := e
        temperature := t
        humidity := h
        wind_speed := w
        precipitation := p } :: rebuildC rs es ts hs ws ps
  | _, _, _, _, _, _ => []

/-- `CanonicalMerger._impute_missing` over the five numeric business
columns. -/
def CanonicalMerger.imputeMissing (rows : List CanonRow) : List CanonRow :=
  rebuildC rows
    (imputeCol (rows.map (·.electricity_demand)))
    (imputeCol (rows.map (·.temperature)))
    (imputeCol (rows.map (·.humidity)))
    (imputeCol (rows.map (·.wind_speed)))
    (imputeCol (rows.map (·.precipitation)))

/-- The temperature outlier test of `CanonicalMerger._flag_outliers`:
`(df.temperature > 60) | (df.temperature < -10)`; `False` on NaN. -/
def tempOutlierCond (x : Option ℚ) : Bool :=
  match x with
  | none => false
  | some v => decide (60 < v) || decide (v < -10)

/-- The demand outlier test of `_flag_outliers`: `df.electricity_demand < 0`. -/
def demandOutlierCond (x : Option ℚ) : Bool :=
  match x with
  | none => false
  | some v => decide (v < 0)

/-- `CanonicalMerger._flag_outliers`: set flagged temperatures and demands to
NaN, then impute again. -/
def CanonicalMerger.flagOutliers (rows : List CanonRow) : List CanonRow :=
  let flagged := rows.map (fun r =>
    let r1 := if tempOutlierCond r.temperature then { r with temperature := none } else r
    if demandOutlierCond r1.electricity_demand then { r1 with electricity_demand := none }
    else r1)
  CanonicalMerger.imputeMissing flagged

/-- The column selection of `_finalize`: keep exactly
`[datetime, electricity_demand, temperature, humidity, wind_speed,
precipitation]`. -/
def CanonicalMerger.selectFinal (r : CanonRow) : FinalRow :=
  { dt := r.dt, electricity_demand := r.electricity_demand,
    temperature := r.temperature, humidity := r.humidity,
    wind_speed := r.wind_speed, precipitation := r.precipitation }

/-- `CanonicalMerger._finalize`: select the final column set, sort by
datetime, and drop every row still missing a critical column (`datetime`,
which is total here, `electricity_demand`, or `temperature`). -/
def CanonicalMerger.finalize (rows : List CanonRow) : List FinalRow :=
  let selected := rows.map CanonicalMerger.selectFinal
  let sorted := selected.insertionSort (fun a b => a.dt ≤ b.dt)
  sorted.filter (fun r => r.electricity_demand.isSome && r.temperature.isSome)

/-- `CanonicalMerger.merge`: the full Silver-to-Gold pipeline in the fixed
order time alignment, inner join, business rename, imputation, outlier
flagging (with re-imputation), finalization. -/
def CanonicalMerger.merge (weather : List WSilverRow) (elec : List ESilverRow) :
    List FinalRow :=
  let w := CanonicalMerger.alignW weather
  let e := CanonicalMerger.alignE elec
  let joined := CanonicalMerger.mergeTables w e
  let renamed := joined.map CanonicalMerger.renameBusiness
  let imputed := CanonicalMerger.imputeMissing renamed
  let flagged := CanonicalMerger.flagOutliers imputed
  CanonicalMerger.finalize flagged

/-- The pandas `Series.is_monotonic_increasing` check on the datetime
column: non-strict, so duplicate datetimes pass. -/

def monotonicIncB : List FinalRow → Bool
  | [] => true
  | [_] => true
  | a :: b :: rest => decide (a.dt ≤ b.dt) && monotonicIncB (b :: rest)

/-- `CanonicalMerger.validate_canonical`: `False` on an empty table; raise
when a critical column still has NaN; raise when `datetime` is not
monotonically non-decreasing; otherwise `True`.  The required-columns check
cannot fail in this typed embedding. -/
def CanonicalMerger.validate_canonical (rows : List FinalRow) : Except String Bool :=
  if rows.isEmpty then .ok false
  else if rows.any (fun r => r.electricity_demand.isNone) then
    .error "Column electricity_demand still has NaN values!"
  else if rows.any (fun r => r.temperature.isNone) then
    .error "Column temperature still has NaN values!"
  else if !(monotonicIncB rows) then
    .error "Datetime not sorted!"
  else .ok true

/-! ## Decimal strings, calendar arithmetic and string predicates -/

/-- The decimal digit character for `d < 10`. -/
def digitChar10 (d : Nat) : Char :=
  match d with
  | 0 => '0' | 1 => '1' | 2 => '2' | 3 => '3' | 4 => '4'
  | 5 => '5' | 6 => '6' | 7 => '7' | 8 => '8' | _ => '9'

/-- The numeric value of a decimal digit character, `none` otherwise. -/
def charDigitVal (c : Char) : Option Nat :=
  if '0' ≤ c ∧ c ≤ '9' then some (c.toNat - '0'.toNat) else none

/-- Little-endian decimal digits of `n`, with explicit fuel (`fuel ≥ n`
suffices); structural recursion keeps the definition kernel-reducible. -/
def natDigitsAux (fuel n : Nat) : List Nat :=
  match fuel with
  | 0 => []
  | fuel + 1 => if n = 0 then [] else n % 10 :: natDigitsAux fuel (n / 10)

/-- The decimal character list of `n`, most significant digit first
(Python `str(n)` / `"%d" % n`). -/
def natChars (n : Nat) : List Char :=
  if n = 0 then ['0'] else ((natDigitsAux n n).map digitChar10).reverse

/-- Python `str(n).zfill(width)` / `f"{n:0wd}"`: the decimal string of `n`
left-padded with zeros to `width` characters. -/
def zfillChars (width n : Nat) : List Char :=
  List.replicate (width - (natChars n).length) '0' ++ natChars n

/-- `str(n)` as a `String`. -/
def natStr (n : Nat) : String := String.mk (natChars n)

/-- `str(n).zfill(width)` as a `String`. -/
def zfill (width n : Nat) : String := String.mk (zfillChars width n)

/-- Python `int(s)` on a string of decimal digits: `none` unless the string
is nonempty and all digits (sign handling is not needed by the callers
modelled here). -/
def pyIntOfChars (cs : List Char) : Option Nat :=
  if cs.isEmpty then none
  else if cs.all (fun c => (charDigitVal c).isSome) then
    some (cs.foldl (fun acc c => 10 * acc + (charDigitVal c).getD 0) 0)
  else none

/-- Python `int(s)` on a `String`. -/
def pyIntOfString (s : String) : Option Nat := pyIntOfChars s.data

/-- The Gregorian leap-year rule used by Python `calendar.monthrange` and
`datetime`. -/
def isLeapYear (y : Nat) : Bool :=
  (y % 4 == 0 && y % 100 != 0) || (y % 400 == 0)

/-- Days in a month, as `calendar.monthrange(year, month)[1]`. -/
def daysInMonth (y m : Nat) : Nat :=
  if m = 2 then (if isLeapYear y then 29 else 28)
  else if m = 4 || m = 6 || m = 9 || m = 11 then 30
  else 31

/-- A calendar date. -/
structure Date where
  year : Nat
  month : Nat
  day : Nat
deriving DecidableEq

/-- A date is valid when the month is in range and the day fits the month
(`datetime.strptime` rejects anything else). -/
def Date.valid (d : Date) : Bool :=
  1 ≤ d.month && d.month ≤ 12 && 1 ≤ d.day && d.day ≤ daysInMonth d.year d.month

/-- `date + timedelta(days=1)`: the following calendar day, rolling over
month and year ends. -/
def Date.nextDay (d : Date) : Date :=
  if d.day < daysInMonth d.year d.month then { d with day := d.day + 1 }
  else if d.month < 12 then { year := d.year, month := d.month + 1, day := 1 }
  else { year := d.year + 1, month := 1, day := 1 }

/-- `date.strftime("%Y-%m-%d")` (CPython zero-pads the year to 4 digits). -/
def Date.format (d : Date) : String :=
  String.mk (zfillChars 4 d.year ++ '-' :: (zfillChars 2 d.month ++ '-' :: zfillChars 2 d.day))

/-- `datetime.strptime(s, "%Y-%m-%d")`: split on the two dashes, parse the
three decimal fields, and reject out-of-range months and days. -/
def Date.parse (s : String) : Option Date :=
  let ys := s.data.takeWhile (fun c => c ≠ '-')
  let rest1 := s.data.dropWhile (fun c => c ≠ '-')
  match rest1 with
  | '-' :: tail1 =>
    let ms := tail1.takeWhile (fun c => c ≠ '-')
    let rest2 := tail1.dropWhile (fun c => c ≠ '-')
    match rest2 with
    | '-' :: ds =>
      match pyIntOfChars ys, pyIntOfChars ms, pyIntOfChars ds with
      | some y, some m, some d =>
        let date : Date := { year := y, month := m, day := d }
        if date.valid then some date else none
      | _, _, _ => none
    | _ => none
  | _ => none

/-- Whether `pre` is a prefix of `s` (`str.startswith`). -/
def strStarts (pre s : String) : Bool := pre.data.isPrefixOf s.data

/-- Whether `suf` is a suffix of `s` (`str.endswith`). -/
def strEnds (suf s : String) : Bool := suf.data.isSuffixOf s.data

/-- Whether `pat` occurs as a substring of `s` (Python `pat in s`). -/
def strHas (pat s : String) : Bool := s.data.tails.any (fun t => pat.data.isPrefixOf t)

/-! ## ProcessingCompactor (services/processing/src/etl/compactor.py) -/

/-- `Config.GOLD_CANONICAL_PATH`. -/
def Config.GOLD_CANONICAL_PATH : String := "gold/canonical"

/-- The wall clock `datetime.now(VN_TZ)` read by `Config.is_month_complete`:
a calendar date plus the seconds elapsed within that day. -/
structure NowVN where
  year : Nat
  month : Nat
  day : Nat
  secs : Nat
deriving DecidableEq

/-- `Config.is_month_complete`: the current month returns `False` at the
first check.  For every other month the source then evaluates
`datetime(year, month, 1) > now_vn`, an ordering comparison between the naive
`target_date` and the timezone-aware `now_vn = datetime.now(VN_TZ)`, which
Python 3 rejects with a `TypeError`; the later `last_day_of_month < now_vn`
comparison is equally mixed and is never reached. -/
def Config.is_month_complete (now : NowVN) (year month : Nat) : Except String Bool :=
  if year == now.year && month == now.month then .ok false
  else .error "TypeError: cannot compare offset-naive and offset-aware datetimes"

/-- The S3 bucket contents: keys mapped to Gold tables.  `list_objects_v2`
returns the stored keys under a prefix (the embedding keeps store order,
which the compaction statuses and counts do not depend on). -/
abbrev S3Store := List (String × List FinalRow)

/-- The stats dictionary returned by `compact_monthly_gold`, with the keys
of the returned dict that matter to the claims (numeric keys default 0 in
branches that do not set them). -/
structure MonthlyStats where
  status : String
  files_found : Nat := 0
  expected : Nat := 0
  files_compacted : Nat := 0
  rows : Nat := 0
  files_deleted : Nat := 0
deriving DecidableEq

/-- `S3Connector.get_monthly_path`. -/
def getMonthlyPath (pre : String) (year month : Nat) (filename : String) : String :=
  pre ++ "/year=" ++ natStr year ++ "/month=" ++ zfill 2 month ++ "/" ++ filename

/-- `s3.write_parquet`: whole-object overwrite at a key. -/
def storeWrite (store : S3Store) (key : String) (table : List FinalRow) : S3Store :=
  if store.any (fun kv => kv.1 == key) then
    store.map (fun kv => if kv.1 == key then (key, table) else kv)
  else store ++ [(key, table)]

/-- `ProcessingCompactor.compact_monthly_gold`: check the month is complete
(a call that in fact raises for any non-current month, see
`Config.is_month_complete`; that check sits outside the `try` block, so the
exception propagates to the caller), list the daily Gold partitions under the
month prefix, require as many daily files as calendar days, then concatenate,
sort by datetime, write the monthly file and only afterwards delete the
daily files. -/
def ProcessingCompactor.compact_monthly_gold (now : NowVN) (store : S3Store)
    (year month : Nat) : Except String (MonthlyStats × S3Store) := do
  let complete ← Config.is_month_complete now year month
  if !complete then
    .ok ({ status := "incomplete" }, store)
  else
    let pref := Config.GOLD_CANONICAL_PATH ++ "/year=" ++ natStr year ++
      "/month=" ++ zfill 2 month ++ "/"
    let contents := store.filter (fun kv => strStarts pref kv.1)
    if contents.isEmpty then .ok ({ status := "no_files" }, store)
    else
      let daily := contents.filter (fun kv =>
        strHas "day=" kv.1 && strEnds "/data.parquet" kv.1)
      if daily.isEmpty then .ok ({ status := "no_files" }, store)
      else
        let expected := daysInMonth year month
        if daily.length < expected then
          .ok ({ status := "incomplete_data", files_found := daily.length,
                 expected := expected }, store)
        else
          let monthly := (daily.flatMap (·.2)).insertionSort (fun a b => a.dt ≤ b.dt)
          let mkey := getMonthlyPath Config.GOLD_CANONICAL_PATH year month "data.parquet"
          let store1 := storeWrite store mkey monthly
          let store2 := store1.filter (fun kv => !(daily.any (fun dkv => dkv.1 == kv.1)))
          .ok ({ status := "success", files_compacted := daily.length,
                 rows := monthly.length, files_deleted := daily.length }, store2)

/-- The daily Gold partition key for one day, as written by
`s3.get_partition_path(GOLD_CANONICAL_PATH, date, "data.parquet")`. -/
def goldDailyKey (year month day : Nat) : String :=
  Config.GOLD_CANONICAL_PATH ++ "/year=" ++ natStr year ++ "/month=" ++ zfill 2 month ++
    "/day=" ++ zfill 2 day ++ "/data.parquet"

/-! ## DataSplitter (services/models/src/data/splitter.py) -/

/-- Python `int(x)` on a float/rational: truncation toward zero. -/
def pyTrunc (q : ℚ) : ℤ := if 0 ≤ q then ⌊q⌋ else ⌈q⌉

/-- Normalize a Python slice bound against a sequence of length `n`:
negative indices count from the end, and both ends clamp into `[0, n]`. -/
def normIdx (i : ℤ) (n : Nat) : Nat :=
  if i < 0 then ((n : ℤ) + i).toNat else min i.toNat n

/-- Python `xs[a:b]` (also pandas `.iloc[a:b]`). -/
def pySlice (a b : ℤ) (xs : List α) : List α :=
  (xs.take (normIdx b xs.length)).drop (normIdx a xs.length)

/-- The 9-tuple returned by `DataSplitter.time_series_split`. -/
structure SplitResult (α β γ : Type) where
  X_train : List α
  X_val : List α
  X_test : List α
  y_train : List β
  y_val : List β
  y_test : List β
  ts_train : List γ
  ts_val : List γ
  ts_test : List γ

/-- `DataSplitter.time_series_split`: validate that the three fractions sum
to 1 within 0.01, then slice features, target and timestamps positionally at
`train_size = int(n * train_ratio)` and `val_end = train_size + val_size`,
with no shuffling. -/
def DataSplitter.time_series_split (X : List α) (y : List β) (ts : List γ)
    (trainFrac valFrac testFrac : ℚ) : Except String (SplitResult α β γ) :=
  if |trainFrac + valFrac + testFrac - 1| > 1 / 100 then
    .error "Ratios must sum to 1.0"
  else
    let n := X.length
    let train_size := pyTrunc ((n : ℚ) * trainFrac)
    let val_size := pyTrunc ((n : ℚ) * valFrac)
    let train_end := train_size
    let val_end := train_size + val_size
    .ok
      { X_train := pySlice 0 train_end X
        X_val := pySlice train_end val_end X
        X_test := (X.drop (normIdx val_end X.length))
        y_train := pySlice 0 train_end y
        y_val := pySlice train_end val_end y
        y_test := (y.drop (normIdx val_end y.length))
        ts_train := pySlice 0 train_end ts
        ts_val := pySlice train_end val_end ts
        ts_test := (ts.drop (normIdx val_end ts.length)) }

/-! ## ModelPredictor (services/models/src/prediction/predictor.py)

Only the target-datetime arithmetic, the arguments handed to
`data_loader.load_recent_hourly_gold` and the timestamp fields of the emitted
record are modelled: the model loading, feature engineering and numeric
prediction steps act on opaque collaborators and do not touch these fields. -/

/-- The timestamp-related outputs of one `ModelPredictor.predict` call. -/
structure PredictTimes where
  prediction_for : String
  load_end_date : String
  load_end_hour : String
  based_on_data_until : String
deriving DecidableEq

/-- The datetime logic of `ModelPredictor.predict`: `predict_hour` is the
input hour plus one; at 24 or more it becomes 0 and `target_date` moves to
the next calendar day (parsed with `strptime`, reformatted with `strftime`);
the possibly rolled `target_date` is then used both as the `end_date` of the
history load and in the output fields, while `end_hour` and
`based_on_data_until` keep the raw input hour string.  A hour string that is
not a decimal number makes `int()` raise. -/
def ModelPredictor.predictTimes (target_date target_hour : String) :
    Except String PredictTimes :=
  match pyIntOfString target_hour with
  | none => .error "ValueError: invalid literal for int()"
  | some h =>
    let predict_hour := h + 1
    if 24 ≤ predict_hour then
      match Date.parse target_date with
      | none => .error "ValueError: time data does not match format"
      | some d =>
        let rolled := (Date.nextDay d).format
        .ok
          { prediction_for := rolled ++ "T" ++ zfill 2 0 ++ ":00:00"
            load_end_date := rolled
            load_end_hour := target_hour
            based_on_data_until := rolled ++ "T" ++ target_hour ++ ":00:00" }
    else
      .ok
        { prediction_for := target_date ++ "T" ++ zfill 2 predict_hour ++ ":00:00"
          load_end_date := target_date
          load_end_hour := target_hour
          based_on_data_until := target_date ++ "T" ++ target_hour ++ ":00:00" }

/-! ## XGBoostFeatureStrategy (services/models/src/features/strategies/xgboost.py)

The models service re-parses the canonical `datetime` column, so a datetime
here is a calendar date plus an hour.  The transcendental/irrational-valued
pandas operations (`np.sin`, `np.cos` of the hour angle, the square root
inside `rolling(...).std()`) are passed in as function parameters: no claim
depends on the numeric values they produce, and every theorem below holds
for arbitrary such functions, in particular the true ones. -/

/-- A canonical timestamp as seen by the models service. -/
structure DT where
  year : Nat
  month : Nat
  day : Nat
  hour : Nat
deriving DecidableEq

/-- Day of week with the pandas `Series.dt.dayofweek` convention
(Monday = 0 .. Sunday = 6), via Sakamoto's method. -/
def DT.dayOfWeek (t : DT) : Nat :=
  let tbl := [0, 3, 2, 5, 0, 3, 5, 1, 4, 6, 2, 4]
  let y := if t.month < 3 then t.year - 1 else t.year
  (y + y / 4 - y / 100 + y / 400 + tbl.getD (t.month - 1) 0 + t.day + 6) % 7

/-- A models-service dataframe: the datetime column plus named numeric
columns.  The string metadata columns are excluded from feature engineering
in the source both by dtype selection and by the explicit exclude list, and
are not modelled. -/
structure Frame where
  datetime : List DT
  cols : List (String × List (Option ℚ))

/-- The feature-engineering configuration with the source defaults. -/
structure XgbConfig where
  create_lags : Bool := true
  lag_periods : List Nat := [1, 2, 3, 24, 168]
  create_rolling : Bool := true
  rolling_windows : List Nat := [3, 6, 12, 24]
  create_interactions : Bool := false

/-- `Series.shift(lag)`: `lag` leading NaNs, then the column truncated. -/
def shiftCol (lag : Nat) (xs : List (Option ℚ)) : List (Option ℚ) :=
  (List.replicate lag none ++ xs).take xs.length

/-- `Series.rolling(window=w).mean()` with the default
`min_periods = w`: defined once the trailing window of `w` cells fits and
contains no NaN. -/
def rollingMean (w : Nat) (xs : List (Option ℚ)) : List (Option ℚ) :=
  (List.range xs.length).map (fun i =>
    if w ≤ i + 1 then
      let win := (xs.take (i + 1)).drop (i + 1 - w)
      if win.all (·.isSome) then some ((win.filterMap id).sum / (w : ℚ)) else none
    else none)

/-- `Series.rolling(window=w).std()`: sample standard deviation
(`ddof = 1`), NaN for `w = 1` (zero degrees of freedom) and under the same
window conditions as the mean; the square root is the `sq` parameter. -/
def rollingStd (sq : ℚ → ℚ) (w : Nat) (xs : List (Option ℚ)) : List (Option ℚ) :=
  (List.range xs.length).map (fun i =>
    if 2 ≤ w ∧ w ≤ i + 1 then
      let win := (xs.take (i + 1)).drop (i + 1 - w)
      if win.all (·.isSome) then
        let vs := win.filterMap id
        let m := vs.sum / (w : ℚ)
        some (sq (((vs.map (fun v => (v - m) ^ 2)).sum) / ((w : ℚ) - 1)))
      else none
    else none)

/-- `XGBoostFeatureStrategy._create_time_features`: hour, day_of_week,
day_of_month, month, is_weekend (day_of_week in {5, 6} as 0/1), hour_sin and
hour_cos (`sin`/`cos` of `2 pi hour / 24`, abstracted as functions of the
hour).  The `datetime` column is always present in this typed embedding, so
the skip-with-warning branch of the source is vacuous. -/
def timeFeatureCols (sinQ cosQ : Nat → ℚ) (dts : List DT) :
    List (String × List (Option ℚ)) :=
  [("hour", dts.map (fun t => some (t.hour : ℚ))),
   ("day_of_week", dts.map (fun t => some (t.dayOfWeek : ℚ))),
   ("day_of_month", dts.map (fun t => some (t.day : ℚ))),
   ("month", dts.map (fun t => some (t.month : ℚ))),
   ("is_weekend", dts.map (fun t =>
      some (if t.dayOfWeek = 5 ∨ t.dayOfWeek = 6 then (1 : ℚ) else 0))),
   ("hour_sin", dts.map (fun t => some (sinQ t.hour))),
   ("hour_cos", dts.map (fun t => some (cosQ t.hour)))]

/-- NaN-propagating product of two cells. -/
def optMul (a b : Option ℚ) : Option ℚ :=
  match a, b with
  | some x, some y => some (x * y)
  | _, _ => none

/-- Column lookup by name. -/
def Frame.col? (f : Frame) (name : String) : Option (List (Option ℚ)) :=
  (f.cols.find? (fun c => c.1 == name)).map (·.2)

/-- `XGBoostFeatureStrategy._create_interaction_features`: the fixed pairs,
each added when both columns exist. -/
def interactionCols (f : Frame) : List (String × List (Option ℚ)) :=
  [("temperature", "hour_sin"), ("temperature", "is_weekend"),
   ("humidity", "temperature")].filterMap (fun pr =>
    match f.col? pr.1, f.col? pr.2 with
    | some c1, some c2 => some (pr.1 ++ "_x_" ++ pr.2, List.zipWith optMul c1 c2)
    | _, _ => none)

/-- The row indices kept by `DataFrame.dropna()`: those where every column
is non-NaN (the datetime column is total). -/
def dropnaKeep (cols : List (String × List (Option ℚ))) (n : Nat) : List Nat :=
  (List.range n).filter (fun i => cols.all (fun c => (c.2.getD i none).isSome))

/-- `DataFrame.dropna()` on a frame. -/
def Frame.dropna (f : Frame) : Frame :=
  let keep := dropnaKeep f.cols f.datetime.length
  { datetime := keep.map (fun i => f.datetime.getD i ⟨0, 0, 0, 0⟩)
    cols := f.cols.map (fun c => (c.1, keep.map (fun i => c.2.getD i none))) }

/-- `XGBoostFeatureStrategy.create_features`: validate non-empty input, add
time features, then for every numeric column (the base columns plus the time
features, all numeric here) add the configured lag copies and rolling
mean/std columns, optionally the interaction products, and finally drop all
rows containing any NaN. -/
def XGBoostFeatureStrategy.create_features (sinQ cosQ : Nat → ℚ) (sq : ℚ → ℚ)
    (cfg : XgbConfig) (f : Frame) : Except String Frame :=
  if f.datetime.length = 0 then .error "Input DataFrame is empty"
  else
    let df0 : Frame :=
      { datetime := f.datetime, cols := f.cols ++ timeFeatureCols sinQ cosQ f.datetime }
    let numericCols := df0.cols
    let df1 : Frame :=
      if cfg.create_lags then
        { df0 with cols := df0.cols ++ numericCols.flatMap (fun c =>
            cfg.lag_periods.map (fun lag =>
              (c.1 ++ "_lag_" ++ natStr lag, shiftCol lag c.2))) }
      else df0
    let df2 : Frame :=
      if cfg.create_rolling then
        { df1 with cols := df1.cols ++ numericCols.flatMap (fun c =>
            cfg.rolling_windows.flatMap (fun w =>
              [(c.1 ++ "_rolling_mean_" ++ natStr w, rollingMean w c.2),
               (c.1 ++ "_rolling_std_" ++ natStr w, rollingStd sq w c.2)])) }
      else df1
    let df3 : Frame :=
      if cfg.create_interactions then { df2 with cols := df2.cols ++ interactionCols df2 }
      else df2
    .ok df3.dropna

/-- A raw weather row with no missing value. -/
def WRow.allPresent (r : WRow) : Bool :=
  r.temp.isSome && r.humidity.isSome && r.precip.isSome &&
  r.windspeed.isSome && r.cloudcover.isSome

/-- A raw weather row whose five values all lie inside the hardcoded
reasonable ranges of `WeatherCleaner._remove_outliers`. -/
def WRow.inRanges (r : WRow) : Bool :=
  !outOfRange r.temp 15 40 && !outOfRange r.humidity 30 100 &&
  !outOfRange r.windspeed 0 50 && !outOfRange r.cloudcover 0 100 &&
  !outOfRange r.precip 0 100

/-- `max(list)` with `max([]) = 0`, for the lag/window bound of the
feature-strategy row invariant. -/
def maxNat (l : List Nat) : Nat := l.foldr max 0

/-- A column of length `n` whose cell at row `i` is non-NaN exactly when
`t ≤ i`: the NaN prefix left by a lag or rolling computation. -/
def colOk (n t : Nat) (c : List (Option ℚ)) : Prop :=
  c.length = n ∧ ∀ i, i < n → ((c.getD i none).isSome ↔ t ≤ i)

/-- The numeric columns present after the time features are added: the
`numeric_cols` list captured by `create_features` before lags and rolling
statistics are appended. -/
def featBase (sinQ cosQ : Nat → ℚ) (f : Frame) : List (String × List (Option ℚ)) :=
  f.cols ++ timeFeatureCols sinQ cosQ f.datetime

/-- The full column list built by `create_features` when lag and rolling
creation are on and interactions are off. -/
def featAll (sinQ cosQ : Nat → ℚ) (sq : ℚ → ℚ) (cfg : XgbConfig) (f : Frame) :
    List (String × List (Option ℚ)) :=
  (featBase sinQ cosQ f
    ++ (featBase sinQ cosQ f).flatMap (fun c =>
        cfg.lag_periods.map (fun lag =>
          (c.1 ++ "_lag_" ++ natStr lag, shiftCol lag c.2))))
    ++ (featBase sinQ cosQ f).flatMap (fun c =>
        cfg.rolling_windows.flatMap (fun w =>
          [(c.1 ++ "_rolling_mean_" ++ natStr w, rollingMean w c.2),
           (c.1 ++ "_rolling_std_" ++ natStr w, rollingStd sq w c.2)]))

/-- Erase the `signal` metadata column of a Silver electricity row. -/
def ESilverRow.stripSignal (r : ESilverRow) : ESilverRow := { r with signal := "" }

/-! ## Lemmas about decimal strings and dates -/

theorem charDigitVal_digitChar10 (d : Nat) (hd : d < 10) :
    charDigitVal (digitChar10 d) = some d := by
  interval_cases d <;> decide

theorem natDigitsAux_lt (fuel : Nat) : ∀ n, ∀ d ∈ natDigitsAux fuel n, d < 10 := by
  induction fuel with
  | zero => intro n d hd; simp [natDigitsAux] at hd
  | succ fuel ih =>
    intro n d hd
    by_cases h : n = 0
    · simp [natDigitsAux, h] at hd
    · simp only [natDigitsAux, if_neg h, List.mem_cons] at hd
      rcases hd with h1 | h2
      · subst h1; exact Nat.mod_lt _ (by norm_num)
      · exact ih _ _ h2

theorem foldl_digits (fuel : Nat) : ∀ n acc, n ≤ fuel →
    List.foldl (fun a c => 10 * a + (charDigitVal c).getD 0) acc
      (((natDigitsAux fuel n).map digitChar10).reverse)
    = acc * 10 ^ (natDigitsAux fuel n).length + n := by
  induction fuel with
  | zero =>
    intro n acc hn
    have : n = 0 := Nat.le_zero.mp hn
    subst this
    simp [natDigitsAux]
  | succ fuel ih =>
    intro n acc hn
    by_cases h : n = 0
    · subst h; simp [natDigitsAux]
    · have hdiv : n / 10 ≤ fuel := by
        have := Nat.div_lt_self (Nat.pos_of_ne_zero h) (by norm_num : 1 < 10)
        omega
      simp only [natDigitsAux, if_neg h, List.map_cons, List.reverse_cons,
        List.foldl_append, List.foldl_cons, List.foldl_nil, List.length_cons]
      rw [ih (n / 10) acc hdiv]
      rw [charDigitVal_digitChar10 (n % 10) (Nat.mod_lt _ (by norm_num))]
      simp only [Option.getD_some]
      have hmod : 10 * (n / 10) + n % 10 = n := by omega
      rw [pow_succ]
      ring_nf
      omega

theorem natChars_ne_nil (n : Nat) : natChars n ≠ [] := by
  unfold natChars
  by_cases h : n = 0
  · simp [h]
  · simp only [if_neg h]
    intro hc
    rcases Nat.exists_eq_succ_of_ne_zero h with ⟨m, rfl⟩
    rw [show natDigitsAux (m + 1) (m + 1) =
      (m + 1) % 10 :: natDigitsAux m ((m + 1) / 10) from by
        simp [natDigitsAux]] at hc
    simp at hc

theorem mem_natChars_digit (n : Nat) : ∀ c ∈ natChars n, (charDigitVal c).isSome := by
  intro c hc
  unfold natChars at hc
  by_cases h : n = 0
  · simp [h] at hc; subst hc; rfl
  · simp only [if_neg h, List.mem_reverse, List.mem_map] at hc
    obtain ⟨d, hd, rfl⟩ := hc
    rw [charDigitVal_digitChar10 d (natDigitsAux_lt n n d hd)]
    rfl

theorem mem_zfillChars_digit (w n : Nat) : ∀ c ∈ zfillChars w n, (charDigitVal c).isSome := by
  intro c hc
  unfold zfillChars at hc
  rcases List.mem_append.mp hc with h1 | h2
  · rw [List.eq_of_mem_replicate h1]; decide
  · exact mem_natChars_digit n c h2

theorem pyIntOfChars_natChars (n : Nat) : pyIntOfChars (natChars n) = some n := by
  unfold pyIntOfChars
  rw [if_neg (by simpa using natChars_ne_nil n)]
  rw [if_pos]
  · congr 1
    unfold natChars
    by_cases h : n = 0
    · subst h; rfl
    · simp only [if_neg h]
      have := foldl_digits n n 0 le_rfl
      simpa using this
  · rw [List.all_eq_true]
    intro c hc
    exact mem_natChars_digit n c hc

theorem foldl_digit_zeros (k : Nat) (cs : List Char) :
    List.foldl (fun a c => 10 * a + (charDigitVal c).getD 0) 0
      (List.replicate k '0' ++ cs)
    = List.foldl (fun a c => 10 * a + (charDigitVal c).getD 0) 0 cs := by
  induction k with
  | zero => simp
  | succ k ih => simpa [List.replicate_succ] using ih

theorem pyIntOfChars_zfillChars (w n : Nat) : pyIntOfChars (zfillChars w n) = some n := by
  unfold pyIntOfChars
  rw [if_neg (by
    unfold zfillChars
    simp only [List.isEmpty_iff, List.append_eq_nil]
    intro ⟨_, hc⟩
    exact natChars_ne_nil n hc)]
  rw [if_pos]
  · congr 1
    unfold zfillChars
    rw [foldl_digit_zeros]
    have h1 := pyIntOfChars_natChars n
    unfold pyIntOfChars at h1
    rw [if_neg (by simpa using natChars_ne_nil n)] at h1
    rw [if_pos (by
      rw [List.all_eq_true]; intro c hc; exact mem_natChars_digit n c hc)] at h1
    simpa using h1
  · rw [List.all_eq_true]
    intro c hc
    exact mem_zfillChars_digit w n c hc

theorem takeWhile_all_append {p : Char → Bool} (l : List Char) (c : Char) (r : List Char)
    (hl : ∀ x ∈ l, p x = true) (hc : p c = false) :
    (l ++ c :: r).takeWhile p = l ∧ (l ++ c :: r).dropWhile p = c :: r := by
  induction l with
  | nil => simp [List.takeWhile, List.dropWhile, hc]
  | cons a l ih =>
    have ha : p a = true := hl a (List.mem_cons_self a l)
    have ih2 := ih (fun x hx => hl x (List.mem_cons_of_mem a hx))
    simp only [List.cons_append, List.takeWhile_cons, List.dropWhile_cons, ha, if_pos]
    exact ⟨by rw [ih2.1], by rw [ih2.2]⟩

theorem digit_ne_dash {c : Char} (h : (charDigitVal c).isSome = true) :
    (decide (c ≠ '-') : Bool) = true := by
  by_contra hne
  have : c = '-' := by
    by_cases hcc : c = '-'
    · exact hcc
    · simp [hcc] at hne
  subst this
  exact absurd h (by decide)

theorem Date.parse_format (d : Date) (hv : d.valid = true) : Date.parse d.format = some d := by
  unfold Date.parse Date.format
  have hdata : (String.mk (zfillChars 4 d.year ++ '-' ::
      (zfillChars 2 d.month ++ '-' :: zfillChars 2 d.day))).data =
      zfillChars 4 d.year ++ '-' :: (zfillChars 2 d.month ++ '-' :: zfillChars 2 d.day) := rfl
  rw [hdata]
  have h1 := takeWhile_all_append (p := fun c => decide (c ≠ '-'))
    (zfillChars 4 d.year) '-' (zfillChars 2 d.month ++ '-' :: zfillChars 2 d.day)
    (fun x hx => digit_ne_dash (mem_zfillChars_digit 4 d.year x hx)) (by simp)
  rw [h1.1, h1.2]
  have h2 := takeWhile_all_append (p := fun c => decide (c ≠ '-'))
    (zfillChars 2 d.month) '-' (zfillChars 2 d.day)
    (fun x hx => digit_ne_dash (mem_zfillChars_digit 2 d.month x hx)) (by simp)
  simp only [h2.1, h2.2]
  rw [pyIntOfChars_zfillChars, pyIntOfChars_zfillChars, pyIntOfChars_zfillChars]
  simp only [hv, if_pos]

theorem pyIntOfString_zfill (w n : Nat) : pyIntOfString (zfill w n) = some n := by
  unfold pyIntOfString zfill
  exact pyIntOfChars_zfillChars w n

/-- C8: for every valid target date and hour at most 23,
`ModelPredictor.predict` forecasts the timestamp whose hour is the input
hour plus one modulo 24, placed on the next calendar day exactly when the
input hour is 23 and on the input date otherwise. -/
theorem C8_predict_next_hour_rollover (d : Date) (h : Nat)
    (hd : d.valid = true) (hh : h ≤ 23) :
    ∃ r, ModelPredictor.predictTimes d.format (zfill 2 h) = .ok r ∧
      r.prediction_for =
        (if h = 23 then d.nextDay.format else d.format) ++ "T" ++
          zfill 2 ((h + 1) % 24) ++ ":00:00" := by
  unfold ModelPredictor.predictTimes
  rw [pyIntOfString_zfill]
  by_cases h23 : h = 23
  · subst h23
    simp only [show (24 ≤ 23 + 1) = True from by simp, if_true]
    rw [Date.parse_format d hd]
    exact ⟨_, rfl, by norm_num⟩
  · have hlt : ¬ (24 ≤ h + 1) := by omega
    simp only [hlt, if_false]
    refine ⟨_, rfl, ?_⟩
    simp only [if_neg h23]
    rw [Nat.mod_eq_of_lt (by omega : h + 1 < 24)]

/-- C8 witness: the spec scenario input `("2024-01-31", "23")` produces the
predicted timestamp `2024-02-01T00:00:00`. -/
theorem C8_predict_next_hour_rollover_witness :
    Date.valid ⟨2024, 1, 31⟩ = true ∧
    ∃ r, ModelPredictor.predictTimes (Date.format ⟨2024, 1, 31⟩) (zfill 2 23) = .ok r ∧
      r.prediction_for = "2024-02-01T00:00:00" := by
  refine ⟨by decide, ?_⟩
  obtain ⟨r, hr, hp⟩ := C8_predict_next_hour_rollover ⟨2024, 1, 31⟩ 23 (by decide) (by decide)
  refine ⟨r, hr, ?_⟩
  rw [hp]
  decide

/-- C10: with input hour `"23"` the predictor moves `target_date` to the next
calendar day before loading history, so `load_recent_hourly_gold` receives
the rolled date as `end_date` while `end_hour` stays `"23"`, and
`based_on_data_until` reports the rolled date; for every hour below 23 the
original date is used both for the load and in `based_on_data_until`. -/
theorem C10_predict_history_uses_rolled_date (d : Date) (hd : d.valid = true) :
    (∃ r, ModelPredictor.predictTimes d.format "23" = .ok r ∧
      r.load_end_date = d.nextDay.format ∧ r.load_end_hour = "23" ∧
      r.based_on_data_until = d.nextDay.format ++ "T" ++ "23" ++ ":00:00") ∧
    (∀ h : Nat, h < 23 →
      ∃ r, ModelPredictor.predictTimes d.format (zfill 2 h) = .ok r ∧
        r.load_end_date = d.format ∧ r.load_end_hour = zfill 2 h ∧
        r.based_on_data_until = d.format ++ "T" ++ zfill 2 h ++ ":00:00") := by
  constructor
  · unfold ModelPredictor.predictTimes
    rw [show pyIntOfString "23" = some 23 from by decide]
    simp only [show (24 ≤ 23 + 1) = True from by simp, if_true]
    rw [Date.parse_format d hd]
    exact ⟨_, rfl, rfl, rfl, rfl⟩
  · intro h hh
    unfold ModelPredictor.predictTimes
    rw [pyIntOfString_zfill]
    have hlt : ¬ (24 ≤ h + 1) := by omega
    simp only [hlt, if_false]
    exact ⟨_, rfl, rfl, rfl, rfl⟩

/-- C10 witness: at `("2024-01-31", "23")` the history load gets end date
`2024-02-01` with end hour `"23"`, and `based_on_data_until` is
`2024-02-01T23:00:00`; at hour `"22"` the original date is kept. -/
theorem C10_predict_history_uses_rolled_date_witness :
    Date.valid ⟨2024, 1, 31⟩ = true ∧
    (∃ r, ModelPredictor.predictTimes (Date.format ⟨2024, 1, 31⟩) "23" = .ok r ∧
      r.load_end_date = "2024-02-01" ∧ r.load_end_hour = "23" ∧
      r.based_on_data_until = "2024-02-01" ++ "T" ++ "23" ++ ":00:00") ∧
    (∃ r, ModelPredictor.predictTimes (Date.format ⟨2024, 1, 31⟩) (zfill 2 22) = .ok r ∧
      r.load_end_date = "2024-01-31") := by
  refine ⟨by decide, ?_, ?_⟩
  · obtain ⟨⟨r, hr, h1, h2, h3⟩, _⟩ :=
      C10_predict_history_uses_rolled_date ⟨2024, 1, 31⟩ (by decide)
    refine ⟨r, hr, ?_, h2, ?_⟩
    · rw [h1]; decide
    · rw [h3, show Date.nextDay ⟨2024, 1, 31⟩ = ⟨2024, 2, 1⟩ from by decide,
        show Date.format ⟨2024, 2, 1⟩ = "2024-02-01" from by decide]
  · obtain ⟨_, hrest⟩ := C10_predict_history_uses_rolled_date ⟨2024, 1, 31⟩ (by decide)
    obtain ⟨r, hr, h1, _, _⟩ := hrest 22 (by decide)
    refine ⟨r, hr, ?_⟩
    rw [h1]; decide

/-- C6 counterexample: `ElectricityCleaner.clean` called with the signal name
`carbon_intensity` on a one-record payload returns one row, not the empty
result the claim asserts for signals other than `total_load`. -/
theorem C6_counterexample :
    ElectricityCleaner.clean
      { history := some [{ dt := 0, total_load := some 100 }], data := none }
      "carbon_intensity" "2024-01-01" =
    .ok [{ dt := 7, total_load := some 100, signal := "carbon_intensity",
           source := "electricity_maps", query_date := "2024-01-01" }] := by
  rfl

/-- C6 amended: `ElectricityCleaner.clean` contains no signal short-circuit.
The signal name is used only in the parse error message and to fill the
`signal` metadata column, so two successful cleans of the same payload under
any two signal names return the same rows up to that column; the restriction
to `total_load` lives in the caller, whose configured signal list is exactly
`["total_load"]`. -/
theorem C6_amended_no_signal_shortcircuit (raw : ElectricityRaw) (s1 s2 qd : String)
    (rows1 rows2 : List ESilverRow)
    (h1 : ElectricityCleaner.clean raw s1 qd = .ok rows1)
    (h2 : ElectricityCleaner.clean raw s2 qd = .ok rows2) :
    rows1.map ESilverRow.stripSignal = rows2.map ESilverRow.stripSignal ∧
    Config.ELECTRICITY_SIGNALS = ["total_load"] := by
  refine ⟨?_, rfl⟩
  cases hh : raw.history with
  | some l =>
    simp only [ElectricityCleaner.clean, ElectricityCleaner.parseJson, hh,
      Bind.bind, Except.bind, Except.ok.injEq] at h1 h2
    subst h1
    subst h2
    simp [ESilverRow.stripSignal, Function.comp]
  | none =>
    cases hd : raw.data with
    | some l =>
      simp only [ElectricityCleaner.clean, ElectricityCleaner.parseJson, hh, hd,
        Bind.bind, Except.bind, Except.ok.injEq] at h1 h2
      subst h1
      subst h2
      simp [ESilverRow.stripSignal, Function.comp]
    | none =>
      simp [ElectricityCleaner.clean, ElectricityCleaner.parseJson, hh, hd,
        Bind.bind, Except.bind] at h1

/-- C6 amended witness: the same payload cleaned as `carbon_intensity` and as
`total_load` yields identical rows up to the signal column. -/
theorem C6_amended_no_signal_shortcircuit_witness :
    ∃ rows1 rows2,
      ElectricityCleaner.clean
        { history := some [{ dt := 0, total_load := some 100 }], data := none }
        "carbon_intensity" "2024-01-01" = .ok rows1 ∧
      ElectricityCleaner.clean
        { history := some [{ dt := 0, total_load := some 100 }], data := none }
        "total_load" "2024-01-01" = .ok rows2 ∧
      rows1.map ESilverRow.stripSignal = rows2.map ESilverRow.stripSignal := by
  have h := C6_amended_no_signal_shortcircuit
    { history := some [{ dt := 0, total_load := some 100 }], data := none }
    "carbon_intensity" "total_load" "2024-01-01"
    [{ dt := 7, total_load := some 100, signal := "carbon_intensity",
       source := "electricity_maps", query_date := "2024-01-01" }]
    [{ dt := 7, total_load := some 100, signal := "total_load",
       source := "electricity_maps", query_date := "2024-01-01" }]
    rfl rfl
  exact ⟨_, _, rfl, rfl, h.1⟩

/-- C4: evaluating `compact_monthly_gold` at the claim scenario (June 2024
viewed from July 15 2024, with 20 of the 30 daily partitions present): the
call does not return `incomplete_data`; it propagates the `TypeError` that
`Config.is_month_complete` raises by ordering the naive
`datetime(year, month, 1)` against the timezone-aware `datetime.now(VN_TZ)`. -/
theorem C4_code_bug_eval :
    ProcessingCompactor.compact_monthly_gold ⟨2024, 7, 15, 0⟩
      ((List.range 20).map (fun i => (goldDailyKey 2024 6 (i + 1), ([] : List FinalRow))))
      2024 6 =
    .error "TypeError: cannot compare offset-naive and offset-aware datetimes" := by
  rfl

/-! ## Lemmas about the cleaners -/

theorem ffillFrom_length (acc : Option ℚ) (xs : List (Option ℚ)) :
    (ffillFrom acc xs).length = xs.length := by
  induction xs generalizing acc with
  | nil => rfl
  | cons x rest ih =>
    cases x with
    | none => simp [ffillFrom, ih]
    | some v => simp [ffillFrom, ih]

theorem ffill_length (xs : List (Option ℚ)) : (ffill xs).length = xs.length :=
  ffillFrom_length none xs

theorem bfill_length (xs : List (Option ℚ)) : (bfill xs).length = xs.length := by
  simp [bfill, ffillFrom_length]

theorem handleMissingCol_length (xs : List (Option ℚ)) :
    (handleMissingCol xs).length = xs.length := by
  unfold handleMissingCol
  by_cases h : xs.any (·.isNone)
  · simp only [h, if_true]
    by_cases h2 : (bfill (ffill xs)).any (·.isNone)
    · simp only [h2, if_true]
      cases medianQ (bfill (ffill xs)) with
      | none => simp [bfill_length, ffill_length]
      | some m => simp [bfill_length, ffill_length]
    · simp [h2, bfill_length, ffill_length]
  · simp [h]

theorem handleMissingCol_of_all_some (xs : List (Option ℚ))
    (h : ∀ x ∈ xs, x.isSome) : handleMissingCol xs = xs := by
  unfold handleMissingCol
  rw [if_neg]
  simp only [List.any_eq_true, not_exists, not_and]
  intro x hx
  have := h x hx
  simp [Option.isNone_iff_eq_none]
  rintro rfl
  simp at this

theorem rebuildE_map_dt (rs : List ERow) (vs : List (Option ℚ))
    (h : vs.length = rs.length) : (rebuildE rs vs).map (·.dt) = rs.map (·.dt) := by
  induction rs generalizing vs with
  | nil => cases vs <;> rfl
  | cons r rest ih =>
    cases vs with
    | nil => simp at h
    | cons v vrest =>
      simp only [rebuildE, List.map_cons]
      rw [ih vrest (by simpa using h)]

theorem rebuildW_self (rs : List WRow) :
    rebuildW rs (rs.map (·.temp)) (rs.map (·.humidity)) (rs.map (·.precip))
      (rs.map (·.windspeed)) (rs.map (·.cloudcover)) = rs := by
  induction rs with
  | nil => rfl
  | cons r rest ih => simp only [List.map_cons, rebuildW, ih]

theorem weatherHandleMissing_of_all_present (rs : List WRow)
    (h : ∀ r ∈ rs, r.temp.isSome ∧ r.humidity.isSome ∧ r.precip.isSome ∧
      r.windspeed.isSome ∧ r.cloudcover.isSome) :
    WeatherCleaner.handleMissing rs = rs := by
  unfold WeatherCleaner.handleMissing
  rw [handleMissingCol_of_all_some _ (by
      intro x hx
      obtain ⟨r, hr, rfl⟩ := List.mem_map.mp hx
      exact (h r hr).1),
    handleMissingCol_of_all_some _ (by
      intro x hx
      obtain ⟨r, hr, rfl⟩ := List.mem_map.mp hx
      exact (h r hr).2.1),
    handleMissingCol_of_all_some _ (by
      intro x hx
      obtain ⟨r, hr, rfl⟩ := List.mem_map.mp hx
      exact (h r hr).2.2.1),
    handleMissingCol_of_all_some _ (by
      intro x hx
      obtain ⟨r, hr, rfl⟩ := List.mem_map.mp hx
      exact (h r hr).2.2.2.1),
    handleMissingCol_of_all_some _ (by
      intro x hx
      obtain ⟨r, hr, rfl⟩ := List.mem_map.mp hx
      exact (h r hr).2.2.2.2)]
  exact rebuildW_self rs

theorem removeOutliers_eq_of_inRanges (xs : List WRow)
    (h : ∀ r ∈ xs, r.inRanges) : WeatherCleaner.removeOutliers xs = xs := by
  simp only [WeatherCleaner.removeOutliers, weatherRanges, List.foldl_cons, List.foldl_nil]
  have hr : ∀ r ∈ xs, (!outOfRange r.temp 15 40) ∧ (!outOfRange r.humidity 30 100) ∧
      (!outOfRange r.windspeed 0 50) ∧ (!outOfRange r.cloudcover 0 100) ∧
      (!outOfRange r.precip 0 100) := by
    intro r hrr
    have := h r hrr
    simp only [WRow.inRanges, Bool.and_eq_true] at this
    exact ⟨this.1.1.1.1, this.1.1.1.2, this.1.1.2, this.1.2, this.2⟩
  rw [List.filter_eq_self.mpr (fun r hrr => (hr r hrr).1),
    List.filter_eq_self.mpr (fun r hrr => (hr r hrr).2.1),
    List.filter_eq_self.mpr (fun r hrr => (hr r hrr).2.2.1),
    List.filter_eq_self.mpr (fun r hrr => (hr r hrr).2.2.2.1),
    List.filter_eq_self.mpr (fun r hrr => (hr r hrr).2.2.2.2)]

theorem removeOutliers_sublist (xs : List WRow) :
    (WeatherCleaner.removeOutliers xs).Sublist xs := by
  simp only [WeatherCleaner.removeOutliers, weatherRanges, List.foldl_cons, List.foldl_nil]
  exact ((((List.filter_sublist _).trans (List.filter_sublist _)).trans
    (List.filter_sublist _)).trans (List.filter_sublist _)).trans (List.filter_sublist _)

theorem mem_removeOutliers (xs : List WRow) (w : WRow)
    (hw : w ∈ WeatherCleaner.removeOutliers xs) : w.inRanges := by
  simp only [WeatherCleaner.removeOutliers, weatherRanges, List.foldl_cons,
    List.foldl_nil] at hw
  have h5 := List.mem_filter.mp hw
  have h4 := List.mem_filter.mp h5.1
  have h3 := List.mem_filter.mp h4.1
  have h2 := List.mem_filter.mp h3.1
  have h1 := List.mem_filter.mp h2.1
  simp only [WRow.inRanges, Bool.and_eq_true]
  exact ⟨⟨⟨⟨h1.2, h2.2⟩, h3.2⟩, h4.2⟩, h5.2⟩

/-- C2 counterexample: raw payloads with a repeated timestamp; both cleaners
return two Silver rows sharing one datetime, so neither deduplicates. -/
theorem C2_counterexample :
    (∃ rows, ElectricityCleaner.clean
        { history := some [{ dt := 0, total_load := some 100 },
                           { dt := 0, total_load := some 200 }], data := none }
        "total_load" "2024-01-01" = .ok rows ∧
      ¬ (rows.map (·.dt)).Nodup) ∧
    (∃ rows, WeatherCleaner.clean
        { days := [[{ dt := 0, temp := some 20, humidity := some 50, precip := some 1,
                      windspeed := some 5, cloudcover := some 50 },
                    { dt := 0, temp := some 21, humidity := some 51, precip := some 1,
                      windspeed := some 5, cloudcover := some 50 }]] }
        "2024-01-01" = .ok rows ∧
      ¬ (rows.map (·.dt)).Nodup) := by
  exact ⟨⟨_, rfl, by decide⟩, ⟨_, rfl, by decide⟩⟩

/-- C2 amended: the cleaners do not deduplicate by datetime.  Electricity:
every parsed record yields exactly one Silver row, datetimes shifted by 7
hours, multiplicities preserved.  Weather: when the parsed hours have no
missing values and all values are within the reasonable ranges (so the only
row-dropping step, the outlier filter, keeps everything), every hour entry
yields exactly one Silver row, again keeping repeated timestamps.
Deduplication happens only downstream, in the models-service loader. -/
theorem C2_amended_no_dedup :
    (∀ (raw : ElectricityRaw) (s qd : String) (l : List ERow),
      raw.history = some l →
      ∃ rows, ElectricityCleaner.clean raw s qd = .ok rows ∧
        rows.map (·.dt) = l.map (·.dt + 7)) ∧
    (∀ (raw : WeatherRaw) (qd : String) (hours : List WRow) (rest : List (List WRow)),
      raw.days = hours :: rest → hours ≠ [] →
      (∀ r ∈ hours, r.allPresent) → (∀ r ∈ hours, r.inRanges) →
      ∃ rows, WeatherCleaner.clean raw qd = .ok rows ∧
        rows.map (·.dt) = hours.map (·.dt + 7)) := by
  constructor
  · intro raw s qd l hh
    refine ⟨_, by
      simp only [ElectricityCleaner.clean, ElectricityCleaner.parseJson,
        hh, Bind.bind, Except.bind]
      rfl, ?_⟩
    rw [List.map_map]
    have hlen : (handleMissingCol ((l.map (fun r =>
        ({ r with dt := r.dt + 7 } : ERow))).map (·.total_load))).length =
        (l.map (fun r => ({ r with dt := r.dt + 7 } : ERow))).length := by
      rw [handleMissingCol_length, List.length_map]
    have := rebuildE_map_dt (l.map (fun r => ({ r with dt := r.dt + 7 } : ERow)))
      (handleMissingCol ((l.map (fun r =>
        ({ r with dt := r.dt + 7 } : ERow))).map (·.total_load))) hlen
    calc (rebuildE (l.map (fun r => ({ r with dt := r.dt + 7 } : ERow)))
          (handleMissingCol ((l.map (fun r =>
            ({ r with dt := r.dt + 7 } : ERow))).map (·.total_load)))).map
            ((fun r => r.dt) ∘ (fun r =>
              ({ dt := r.dt, total_load := r.total_load, signal := s,
                 source := "electricity_maps", query_date := qd } : ESilverRow)))
        = (rebuildE (l.map (fun r => ({ r with dt := r.dt + 7 } : ERow)))
            (handleMissingCol ((l.map (fun r =>
              ({ r with dt := r.dt + 7 } : ERow))).map (·.total_load)))).map (·.dt) := rfl
      _ = (l.map (fun r => ({ r with dt := r.dt + 7 } : ERow))).map (·.dt) := this
      _ = l.map (·.dt + 7) := by rw [List.map_map]; rfl
  · intro raw qd hours rest hdays hne hpresent hranges
    have hparse : WeatherCleaner.parseJson raw = .ok hours := by
      unfold WeatherCleaner.parseJson
      rw [hdays]
      cases hours with
      | nil => exact absurd rfl hne
      | cons a b => rfl
    have htzpresent : ∀ r ∈ WeatherCleaner.convertTz hours,
        r.temp.isSome ∧ r.humidity.isSome ∧ r.precip.isSome ∧
        r.windspeed.isSome ∧ r.cloudcover.isSome := by
      intro r hr
      obtain ⟨r0, hr0, rfl⟩ := List.mem_map.mp hr
      have := hpresent r0 hr0
      simp only [WRow.allPresent, Bool.and_eq_true] at this
      exact ⟨this.1.1.1.1, this.1.1.1.2, this.1.1.2, this.1.2, this.2⟩
    have htzranges : ∀ r ∈ WeatherCleaner.convertTz hours, r.inRanges := by
      intro r hr
      obtain ⟨r0, hr0, rfl⟩ := List.mem_map.mp hr
      exact hranges r0 hr0
    refine ⟨_, by
      simp only [WeatherCleaner.clean, hparse, Bind.bind, Except.bind]
      rfl, ?_⟩
    rw [weatherHandleMissing_of_all_present _ htzpresent,
      removeOutliers_eq_of_inRanges _ htzranges]
    unfold WeatherCleaner.convertTz
    rw [List.map_map, List.map_map]
    rfl

/-- C2 amended witness: the duplicated-timestamp payloads of the
counterexample, pushed through the amended theorem: the electricity Silver
datetimes are `[7, 7]` and the weather Silver datetimes are `[7, 7]`. -/
theorem C2_amended_no_dedup_witness :
    (∃ rows, ElectricityCleaner.clean
        { history := some [{ dt := 0, total_load := some 100 },
                           { dt := 0, total_load := some 200 }], data := none }
        "total_load" "2024-01-01" = .ok rows ∧ rows.map (·.dt) = [7, 7]) ∧
    (∃ rows, WeatherCleaner.clean
        { days := [[{ dt := 0, temp := some 20, humidity := some 50, precip := some 1,
                      windspeed := some 5, cloudcover := some 50 },
                    { dt := 0, temp := some 21, humidity := some 51, precip := some 1,
                      windspeed := some 5, cloudcover := some 50 }]] }
        "2024-01-01" = .ok rows ∧ rows.map (·.dt) = [7, 7]) := by
  constructor
  · obtain ⟨rows, h1, h2⟩ := C2_amended_no_dedup.1
      { history := some [{ dt := 0, total_load := some 100 },
                         { dt := 0, total_load := some 200 }], data := none }
      "total_load" "2024-01-01" _ rfl
    exact ⟨rows, h1, by rw [h2]; rfl⟩
  · obtain ⟨rows, h1, h2⟩ := C2_amended_no_dedup.2
      { days := [[{ dt := 0, temp := some 20, humidity := some 50, precip := some 1,
                    windspeed := some 5, cloudcover := some 50 },
                  { dt := 0, temp := some 21, humidity := some 51, precip := some 1,
                    windspeed := some 5, cloudcover := some 50 }]] }
      "2024-01-01" _ _ rfl (by decide) (by decide) (by decide)
    exact ⟨rows, h1, by rw [h2]; rfl⟩

theorem outOfRange_false_bounds {x : Option ℚ} {lo hi : ℚ}
    (h : outOfRange x lo hi = false) : ∀ v, x = some v → lo ≤ v ∧ v ≤ hi := by
  intro v hv
  subst hv
  simp only [outOfRange, Bool.or_eq_false_iff, decide_eq_false_iff_not, not_lt] at h
  exact ⟨h.1, h.2⟩

theorem tempOutlierCond_false_of_bounds {x : Option ℚ}
    (h : ∀ v, x = some v → 15 ≤ v ∧ v ≤ 40) : tempOutlierCond x = false := by
  cases x with
  | none => rfl
  | some v =>
    have hv := h v rfl
    simp only [tempOutlierCond, Bool.or_eq_false_iff, decide_eq_false_iff_not, not_lt]
    exact ⟨by linarith [hv.2], by linarith [hv.1]⟩

/-- C9: the weather cleaner drops whole rows (the outlier step is a filter,
hence a sublist of its input with surviving values untouched) whenever a
value lies outside temp [15, 40], humidity [30, 100], windspeed [0, 50],
cloudcover [0, 100] or precip [0, 100]; consequently every Silver weather
row satisfies those bounds, and in particular its temperature can never
trigger the canonical merger temperature flag, whose own policy only
rejects values outside [-10, 60]. -/
theorem C9_weather_outliers_drop_whole_rows (raw : WeatherRaw) (qd : String)
    (rows : List WSilverRow) (h : WeatherCleaner.clean raw qd = .ok rows) :
    (∀ r ∈ rows,
      (∀ v, r.temperature = some v → 15 ≤ v ∧ v ≤ 40) ∧
      (∀ v, r.humidity = some v → 30 ≤ v ∧ v ≤ 100) ∧
      (∀ v, r.wind_speed = some v → 0 ≤ v ∧ v ≤ 50) ∧
      (∀ v, r.cloud_cover = some v → 0 ≤ v ∧ v ≤ 100) ∧
      (∀ v, r.precipitation = some v → 0 ≤ v ∧ v ≤ 100) ∧
      tempOutlierCond r.temperature = false) ∧
    (∀ xs : List WRow, (WeatherCleaner.removeOutliers xs).Sublist xs) := by
  refine ⟨?_, removeOutliers_sublist⟩
  intro r hr
  cases hparse : WeatherCleaner.parseJson raw with
  | error e =>
    simp only [WeatherCleaner.clean, hparse, Bind.bind, Except.bind] at h
    exact absurd h (by simp)
  | ok hours =>
    simp only [WeatherCleaner.clean, hparse, Bind.bind, Except.bind,
      Except.ok.injEq] at h
    subst h
    obtain ⟨w, hw, rfl⟩ := List.mem_map.mp hr
    have hir := mem_removeOutliers _ w hw
    simp only [WRow.inRanges, Bool.and_eq_true] at hir
    have ht := outOfRange_false_bounds (by simpa using hir.1.1.1.1)
    have hu := outOfRange_false_bounds (by simpa using hir.1.1.1.2)
    have hws := outOfRange_false_bounds (by simpa using hir.1.1.2)
    have hc := outOfRange_false_bounds (by simpa using hir.1.2)
    have hp := outOfRange_false_bounds (by simpa using hir.2)
    exact ⟨ht, hu, hws, hc, hp, tempOutlierCond_false_of_bounds ht⟩

/-- C9 witness: a payload with one in-range hour and one hour at temperature
1000; the cleaned output keeps only the in-range row and its temperature can
never satisfy the merger flag condition. -/
theorem C9_weather_outliers_drop_whole_rows_witness :
    ∃ rows, WeatherCleaner.clean
        { days := [[{ dt := 0, temp := some 20, humidity := some 50, precip := some 1,
                      windspeed := some 5, cloudcover := some 50 },
                    { dt := 1, temp := some 1000, humidity := some 50, precip := some 1,
                      windspeed := some 5, cloudcover := some 50 }]] }
        "2024-01-01" = .ok rows ∧
      (∀ r ∈ rows, (∀ v, r.temperature = some v → 15 ≤ v ∧ v ≤ 40) ∧
        tempOutlierCond r.temperature = false) ∧
      rows.map (·.dt) = [7] := by
  obtain ⟨hall, _⟩ := C9_weather_outliers_drop_whole_rows
    { days := [[{ dt := 0, temp := some 20, humidity := some 50, precip := some 1,
                  windspeed := some 5, cloudcover := some 50 },
                { dt := 1, temp := some 1000, humidity := some 50, precip := some 1,
                  windspeed := some 5, cloudcover := some 50 }]] }
    "2024-01-01" _ rfl
  refine ⟨_, rfl, ?_, by decide⟩
  intro r hr
  exact ⟨(hall r hr).1, (hall r hr).2.2.2.2.2⟩

/-! ## Lemmas about the splitter -/


theorem take_min_length (k n : Nat) (xs : List α) (h : xs.length ≤ n) :
    xs.take (min k n) = xs.take k := by
  rcases le_total k n with hk | hk
  · rw [min_eq_left hk]
  · rw [min_eq_right hk, List.take_of_length_le h,
      List.take_of_length_le (h.trans hk)]

theorem drop_min_length (k n : Nat) (xs : List α) (h : xs.length ≤ n) :
    xs.drop (min k n) = xs.drop k := by
  rcases le_total k n with hk | hk
  · rw [min_eq_left hk]
  · rw [min_eq_right hk, List.drop_eq_nil_of_le h, List.drop_eq_nil_of_le (h.trans hk)]

theorem normIdx_nonneg (i : ℤ) (hi : 0 ≤ i) (n : Nat) : normIdx i n = min i.toNat n := by
  unfold normIdx
  rw [if_neg (by omega)]

theorem pySlice_nonneg (a b : ℤ) (ha : 0 ≤ a) (hb : 0 ≤ b) (xs : List α) :
    pySlice a b xs = (xs.drop a.toNat).take (b.toNat - a.toNat) := by
  unfold pySlice
  rw [normIdx_nonneg a ha, normIdx_nonneg b hb,
    take_min_length b.toNat xs.length xs le_rfl,
    drop_min_length a.toNat xs.length (xs.take b.toNat) (by
      rw [List.length_take]; exact min_le_right _ _),
    List.drop_take]

theorem pyTrunc_nonneg (q : ℚ) (hq : 0 ≤ q) : pyTrunc q = ⌊q⌋ := by
  unfold pyTrunc
  rw [if_pos hq]

/-- C5 counterexample: with 200 rows and ratios `(0.8, 0.205, 0)` the ratio
check passes (the sum misses 1.0 by exactly 0.005 ≤ 0.01) and
`floor(n * val_ratio)` is 41, yet the returned validation slice has only 40
rows because `iloc[160:201]` is clamped at the end of the 200-row table; so
the claim that the validation set is "the next floor(n*val_ratio) rows"
fails at this input. -/
theorem C5_counterexample :
    (DataSplitter.time_series_split (List.range 200) (List.range 200)
        (List.range 200) (4 / 5) (41 / 200) 0).map (fun r => r.X_val.length) =
      .ok 40 ∧
    |(4 : ℚ) / 5 + 41 / 200 + 0 - 1| ≤ 1 / 100 ∧
    ⌊((List.range 200).length : ℚ) * (41 / 200)⌋ = 41 := by
  have htol : ¬(|(4 : ℚ) / 5 + 41 / 200 + 0 - 1| > 1 / 100) := by
    rw [not_lt, abs_le]
    constructor <;> norm_num
  have hn : ((List.range 200).length : ℚ) = 200 := by simp
  have hts : pyTrunc (((List.range 200).length : ℚ) * (4 / 5)) = 160 := by
    rw [hn, pyTrunc_nonneg _ (by norm_num)]
    norm_num
  have hvs : pyTrunc (((List.range 200).length : ℚ) * (41 / 200)) = 41 := by
    rw [hn, pyTrunc_nonneg _ (by norm_num)]
    norm_num
  refine ⟨?_, by rw [abs_le]; constructor <;> norm_num, by rw [hn]; norm_num⟩
  rw [DataSplitter.time_series_split, if_neg htol]
  simp only [Except.map, hts, hvs]
  rw [pySlice_nonneg 160 (160 + 41) (by norm_num) (by norm_num)]
  simp only [Except.ok.injEq]
  rw [show ((160 : ℤ) + 41).toNat = 201 from by decide,
    show ((160 : ℤ)).toNat = 160 from by decide]
  simp [List.length_take, List.length_drop, List.length_range]

/-- C5 amended: with nonnegative ratios, the split errors exactly when the
ratio sum misses 1.0 by more than 0.01; otherwise it returns the purely
positional, non-shuffled slices train = rows [0, floor(n*train_ratio)),
val = the next floor(n*val_ratio) rows clamped at the end of the table
(the clamp matters when the tolerated ratio sum exceeds 1), test = all
remaining rows; for strictly increasing timestamps the three segments are
contiguous, non-overlapping and chronologically ordered. -/
theorem C5_amended_split {α β γ : Type} [LT γ] (X : List α) (y : List β) (ts : List γ)
    (tf vf testf : ℚ) (htf : 0 ≤ tf) (hvf : 0 ≤ vf) :
    (|tf + vf + testf - 1| > 1 / 100 →
      DataSplitter.time_series_split X y ts tf vf testf =
        .error "Ratios must sum to 1.0") ∧
    (¬(|tf + vf + testf - 1| > 1 / 100) →
      ∃ r, DataSplitter.time_series_split X y ts tf vf testf = .ok r ∧
        (r.X_train = X.take (⌊(X.length : ℚ) * tf⌋).toNat ∧
         r.X_val = (X.drop (⌊(X.length : ℚ) * tf⌋).toNat).take
           (⌊(X.length : ℚ) * vf⌋).toNat ∧
         r.X_test = X.drop ((⌊(X.length : ℚ) * tf⌋).toNat +
           (⌊(X.length : ℚ) * vf⌋).toNat) ∧
         r.y_train = y.take (⌊(X.length : ℚ) * tf⌋).toNat ∧
         r.y_val = (y.drop (⌊(X.length : ℚ) * tf⌋).toNat).take
           (⌊(X.length : ℚ) * vf⌋).toNat ∧
         r.y_test = y.drop ((⌊(X.length : ℚ) * tf⌋).toNat +
           (⌊(X.length : ℚ) * vf⌋).toNat) ∧
         r.ts_train = ts.take (⌊(X.length : ℚ) * tf⌋).toNat ∧
         r.ts_val = (ts.drop (⌊(X.length : ℚ) * tf⌋).toNat).take
           (⌊(X.length : ℚ) * vf⌋).toNat ∧
         r.ts_test = ts.drop ((⌊(X.length : ℚ) * tf⌋).toNat +
           (⌊(X.length : ℚ) * vf⌋).toNat)) ∧
        (ts.Pairwise (· < ·) →
          (∀ a ∈ r.ts_train, ∀ b ∈ r.ts_val, a < b) ∧
          (∀ a ∈ r.ts_val, ∀ b ∈ r.ts_test, a < b) ∧
          (∀ a ∈ r.ts_train, ∀ b ∈ r.ts_test, a < b))) := by
  have htn : (0 : ℤ) ≤ ⌊(X.length : ℚ) * tf⌋ :=
    Int.floor_nonneg.mpr (mul_nonneg (by positivity) htf)
  have hvn : (0 : ℤ) ≤ ⌊(X.length : ℚ) * vf⌋ :=
    Int.floor_nonneg.mpr (mul_nonneg (by positivity) hvf)
  have htrunc1 : pyTrunc ((X.length : ℚ) * tf) = ⌊(X.length : ℚ) * tf⌋ :=
    pyTrunc_nonneg _ (mul_nonneg (by positivity) htf)
  have htrunc2 : pyTrunc ((X.length : ℚ) * vf) = ⌊(X.length : ℚ) * vf⌋ :=
    pyTrunc_nonneg _ (mul_nonneg (by positivity) hvf)
  have hslice0 : ∀ {δ : Type} (zs : List δ),
      pySlice 0 (pyTrunc ((X.length : ℚ) * tf)) zs =
        zs.take (⌊(X.length : ℚ) * tf⌋).toNat := by
    intro δ zs
    rw [htrunc1, pySlice_nonneg 0 _ le_rfl htn]
    simp
  have hslice1 : ∀ {δ : Type} (zs : List δ),
      pySlice (pyTrunc ((X.length : ℚ) * tf))
        (pyTrunc ((X.length : ℚ) * tf) + pyTrunc ((X.length : ℚ) * vf)) zs =
      (zs.drop (⌊(X.length : ℚ) * tf⌋).toNat).take (⌊(X.length : ℚ) * vf⌋).toNat := by
    intro δ zs
    rw [htrunc1, htrunc2, pySlice_nonneg _ _ htn (by omega)]
    rw [Int.toNat_add htn hvn]
    congr 1
    omega
  have hslice2 : ∀ {δ : Type} (zs : List δ),
      zs.drop (normIdx (pyTrunc ((X.length : ℚ) * tf) +
        pyTrunc ((X.length : ℚ) * vf)) zs.length) =
      zs.drop ((⌊(X.length : ℚ) * tf⌋).toNat + (⌊(X.length : ℚ) * vf⌋).toNat) := by
    intro δ zs
    rw [htrunc1, htrunc2, normIdx_nonneg _ (by omega), Int.toNat_add htn hvn,
      drop_min_length _ _ _ le_rfl]
  constructor
  · intro h
    rw [DataSplitter.time_series_split, if_pos h]
  · intro h
    rw [DataSplitter.time_series_split, if_neg h]
    refine ⟨_, rfl, ⟨hslice0 X, hslice1 X, hslice2 X, hslice0 y, hslice1 y,
      hslice2 y, hslice0 ts, hslice1 ts, hslice2 ts⟩, ?_⟩
    intro hp
    simp only [hslice0 ts, hslice1 ts, hslice2 ts]
    have hp1 : ∀ a ∈ ts.take (⌊(X.length : ℚ) * tf⌋).toNat,
        ∀ b ∈ ts.drop (⌊(X.length : ℚ) * tf⌋).toNat, a < b :=
      (List.pairwise_append.mp (by rw [List.take_append_drop]; exact hp)).2.2
    have hpd : (ts.drop (⌊(X.length : ℚ) * tf⌋).toNat).Pairwise (· < ·) :=
      List.Pairwise.sublist (List.drop_sublist _ _) hp
    have hp2 : ∀ a ∈ (ts.drop (⌊(X.length : ℚ) * tf⌋).toNat).take
          (⌊(X.length : ℚ) * vf⌋).toNat,
        ∀ b ∈ (ts.drop (⌊(X.length : ℚ) * tf⌋).toNat).drop
          (⌊(X.length : ℚ) * vf⌋).toNat, a < b :=
      (List.pairwise_append.mp (by rw [List.take_append_drop]; exact hpd)).2.2
    have hdd : ts.drop ((⌊(X.length : ℚ) * tf⌋).toNat + (⌊(X.length : ℚ) * vf⌋).toNat) =
        (ts.drop (⌊(X.length : ℚ) * tf⌋).toNat).drop (⌊(X.length : ℚ) * vf⌋).toNat := by
      rw [List.drop_drop, Nat.add_comm]
    refine ⟨?_, ?_, ?_⟩
    · intro a ha b hb
      exact hp1 a ha b (List.mem_of_mem_take hb)
    · intro a ha b hb
      rw [hdd] at hb
      exact hp2 a ha b hb
    · intro a ha b hb
      rw [hdd] at hb
      exact hp1 a ha b (List.mem_of_mem_drop hb)

/-- C5 amended witness: splitting 10 rows with ratios `(0.7, 0.15, 0.15)`
gives the slices `[0, 7)`, `[7, 8)`, `[8, 10)` in order. -/
theorem C5_amended_split_witness :
    (0 : ℚ) ≤ 7 / 10 ∧ (0 : ℚ) ≤ 15 / 100 ∧
    ¬(|(7 : ℚ) / 10 + 15 / 100 + 15 / 100 - 1| > 1 / 100) ∧
    ∃ r, DataSplitter.time_series_split (List.range 10) (List.range 10)
        (List.range 10) (7 / 10) (15 / 100) (15 / 100) = .ok r ∧
      r.X_train = List.take 7 (List.range 10) ∧
      (∀ a ∈ r.ts_train, ∀ b ∈ r.ts_val, a < b) := by
  have h1 : (0 : ℚ) ≤ 7 / 10 := by norm_num
  have h2 : (0 : ℚ) ≤ 15 / 100 := by norm_num
  have h3 : ¬(|(7 : ℚ) / 10 + 15 / 100 + 15 / 100 - 1| > 1 / 100) := by
    rw [not_lt, abs_le]
    constructor <;> norm_num
  obtain ⟨r, hr, hcomp, hord⟩ :=
    (C5_amended_split (List.range 10) (List.range 10) (List.range 10)
      (7 / 10) (15 / 100) (15 / 100) h1 h2).2 h3
  refine ⟨h1, h2, h3, r, hr, ?_, (hord (by decide)).1⟩
  rw [hcomp.1]
  congr 1
  simp only [List.length_range]
  norm_num
  decide

/-! ## Lemmas about the canonical merger -/

theorem pdInterpolate_length (limit : Nat) (xs : List (Option ℚ)) :
    (pdInterpolate limit xs).length = xs.length := by
  simp [pdInterpolate]

theorem imputeCol_length (xs : List (Option ℚ)) : (imputeCol xs).length = xs.length := by
  unfold imputeCol
  split
  · rw [bfill_length, ffill_length, pdInterpolate_length]
  · rfl

theorem rebuildC_map_dt : ∀ (rows : List CanonRow) (a b c d e : List (Option ℚ)),
    rows.length ≤ a.length → rows.length ≤ b.length → rows.length ≤ c.length →
    rows.length ≤ d.length → rows.length ≤ e.length →
    (rebuildC rows a b c d e).map (·.dt) = rows.map (·.dt) := by
  intro rows
  induction rows with
  | nil =>
    intro a b c d e _ _ _ _ _
    cases a <;> cases b <;> cases c <;> cases d <;> cases e <;> rfl
  | cons r rest ih =>
    intro a b c d e ha hb hc hd he
    cases a with
    | nil => simp at ha
    | cons a0 a1 =>
      cases b with
      | nil => simp at hb
      | cons b0 b1 =>
        cases c with
        | nil => simp at hc
        | cons c0 c1 =>
          cases d with
          | nil => simp at hd
          | cons d0 d1 =>
            cases e with
            | nil => simp at he
            | cons e0 e1 =>
              simp only [rebuildC, List.map_cons]
              rw [ih a1 b1 c1 d1 e1 (by simpa using ha) (by simpa using hb)
                (by simpa using hc) (by simpa using hd) (by simpa using he)]

theorem imputeMissing_map_dt (rows : List CanonRow) :
    (CanonicalMerger.imputeMissing rows).map (·.dt) = rows.map (·.dt) := by
  unfold CanonicalMerger.imputeMissing
  apply rebuildC_map_dt <;> rw [imputeCol_length, List.length_map]

theorem flagOutliers_map_dt (rows : List CanonRow) :
    (CanonicalMerger.flagOutliers rows).map (·.dt) = rows.map (·.dt) := by
  unfold CanonicalMerger.flagOutliers
  rw [imputeMissing_map_dt, List.map_map]
  apply List.map_congr_left
  intro r _
  simp only [Function.comp_apply]
  split <;> split <;> rfl

theorem mergeTables_mem_dt (w : List WSilverRow) (e : List ESilverRow) (x : Nat)
    (hx : x ∈ (CanonicalMerger.mergeTables w e).map (·.dt)) : x ∈ w.map (·.dt) := by
  unfold CanonicalMerger.mergeTables at hx
  rw [List.map_flatMap] at hx
  obtain ⟨wr, hwr, hin⟩ := List.mem_flatMap.mp hx
  rw [List.map_map] at hin
  obtain ⟨er, _, rfl⟩ := List.mem_map.mp hin
  exact List.mem_map.mpr ⟨wr, hwr, rfl⟩

theorem filter_dt_len_le_one (e : List ESilverRow) (he : (e.map (·.dt)).Nodup) (d : Nat) :
    (e.filter (fun x => x.dt == d)).length ≤ 1 := by
  induction e with
  | nil => simp
  | cons er rest ih =>
    simp only [List.map_cons, List.nodup_cons] at he
    by_cases hd : er.dt = d
    · rw [List.filter_cons_of_pos (by simpa using hd)]
      have hnil : rest.filter (fun x => x.dt == d) = [] := by
        rw [List.filter_eq_nil_iff]
        intro x hx hpx
        have hxd : x.dt = d := by simpa using hpx
        exact he.1 (List.mem_map.mpr ⟨x, hx, by rw [hxd, hd]⟩)
      simp [hnil]
    · rw [List.filter_cons_of_neg (by simpa using hd)]
      exact ih he.2

theorem nodup_of_length_le_one {l : List Nat} (h : l.length ≤ 1) : l.Nodup := by
  cases l with
  | nil => exact List.nodup_nil
  | cons a rest =>
    cases rest with
    | nil => simp
    | cons b r2 => simp at h

theorem mergeTables_dts_nodup (w : List WSilverRow) (e : List ESilverRow)
    (hw : (w.map (·.dt)).Nodup) (he : (e.map (·.dt)).Nodup) :
    ((CanonicalMerger.mergeTables w e).map (·.dt)).Nodup := by
  induction w with
  | nil => simp [CanonicalMerger.mergeTables]
  | cons wr rest ih =>
    simp only [List.map_cons, List.nodup_cons] at hw
    unfold CanonicalMerger.mergeTables
    rw [List.flatMap_cons, List.map_append]
    rw [List.nodup_append]
    refine ⟨?_, ?_, ?_⟩
    · rw [List.map_map]
      apply nodup_of_length_le_one
      rw [List.length_map]
      exact filter_dt_len_le_one e he wr.dt
    · exact ih hw.2
    · intro x hx1 hx2
      rw [List.map_map] at hx1
      obtain ⟨er, _, rfl⟩ := List.mem_map.mp hx1
      exact hw.1 (mergeTables_mem_dt rest e _ hx2)

theorem pairwise_lt_of_le_nodup (l : List Nat) (hle : l.Pairwise (· ≤ ·))
    (hnd : l.Nodup) : l.Pairwise (· < ·) :=
  (hle.and hnd).imp (fun h => lt_of_le_of_ne h.1 h.2)

/-- C1 counterexample: a weather table with two rows at one datetime joined
against a matching electricity row yields a canonical table whose datetime
column is `[0, 0]`: duplicates survive finalization and the datetime column
is not strictly increasing, while `validate_canonical` (a non-strict
monotonicity check) still accepts the table. -/
theorem C1_counterexample :
    (CanonicalMerger.merge
        [{ dt := 0, temperature := some 20, humidity := some 50,
           precipitation := some 1, wind_speed := some 5, cloud_cover := some 50,
           source := "visual_crossing", query_date := "2024-01-01" },
         { dt := 0, temperature := some 21, humidity := some 51,
           precipitation := some 1, wind_speed := some 5, cloud_cover := some 50,
           source := "visual_crossing", query_date := "2024-01-01" }]
        [{ dt := 0, total_load := some 100, signal := "total_load",
           source := "electricity_maps", query_date := "2024-01-01" }]).map (·.dt) =
      [0, 0] ∧
    ¬ ((CanonicalMerger.merge
        [{ dt := 0, temperature := some 20, humidity := some 50,
           precipitation := some 1, wind_speed := some 5, cloud_cover := some 50,
           source := "visual_crossing", query_date := "2024-01-01" },
         { dt := 0, temperature := some 21, humidity := some 51,
           precipitation := some 1, wind_speed := some 5, cloud_cover := some 50,
           source := "visual_crossing", query_date := "2024-01-01" }]
        [{ dt := 0, total_load := some 100, signal := "total_load",
           source := "electricity_maps", query_date := "2024-01-01" }]).map (·.dt)).Pairwise
        (· < ·) ∧
    CanonicalMerger.validate_canonical (CanonicalMerger.merge
        [{ dt := 0, temperature := some 20, humidity := some 50,
           precipitation := some 1, wind_speed := some 5, cloud_cover := some 50,
           source := "visual_crossing", query_date := "2024-01-01" },
         { dt := 0, temperature := some 21, humidity := some 51,
           precipitation := some 1, wind_speed := some 5, cloud_cover := some 50,
           source := "visual_crossing", query_date := "2024-01-01" }]
        [{ dt := 0, total_load := some 100, signal := "total_load",
           source := "electricity_maps", query_date := "2024-01-01" }]) = .ok true := by
  refine ⟨by decide, by decide, by rfl⟩


/-- C1 amended: when each Silver input table has no duplicate datetime, the
canonical table returned by `merge` has a strictly increasing datetime
column; only this restricted statement holds in general, because the inner
join preserves duplicated input keys and `_finalize` never deduplicates. -/
theorem C1_amended_strictly_increasing (w : List WSilverRow) (e : List ESilverRow)
    (hw : (w.map (·.dt)).Nodup) (he : (e.map (·.dt)).Nodup) :
    ((CanonicalMerger.merge w e).map (·.dt)).Pairwise (· < ·) := by
  haveI hTot : IsTotal FinalRow (fun a b => a.dt ≤ b.dt) :=
    ⟨fun a b => Nat.le_total a.dt b.dt⟩
  haveI hTrans : IsTrans FinalRow (fun a b => a.dt ≤ b.dt) :=
    ⟨fun _ _ _ hab hbc => le_trans hab hbc⟩
  have hwA : ((CanonicalMerger.alignW w).map (·.dt)).Nodup :=
    (List.Perm.nodup_iff
      ((List.perm_insertionSort (fun a b => a.dt ≤ b.dt) w).map (·.dt))).mpr hw
  have heA : ((CanonicalMerger.alignE e).map (·.dt)).Nodup :=
    (List.Perm.nodup_iff
      ((List.perm_insertionSort (fun a b => a.dt ≤ b.dt) e).map (·.dt))).mpr he
  show ((CanonicalMerger.finalize (CanonicalMerger.flagOutliers
    (CanonicalMerger.imputeMissing ((CanonicalMerger.mergeTables
      (CanonicalMerger.alignW w) (CanonicalMerger.alignE e)).map
        CanonicalMerger.renameBusiness)))).map (·.dt)).Pairwise (· < ·)
  have hF : ((CanonicalMerger.flagOutliers (CanonicalMerger.imputeMissing
      ((CanonicalMerger.mergeTables (CanonicalMerger.alignW w)
        (CanonicalMerger.alignE e)).map CanonicalMerger.renameBusiness))).map
      (·.dt)).Nodup := by
    rw [flagOutliers_map_dt, imputeMissing_map_dt, List.map_map]
    exact mergeTables_dts_nodup _ _ hwA heA
  unfold CanonicalMerger.finalize
  set F := CanonicalMerger.flagOutliers (CanonicalMerger.imputeMissing
    ((CanonicalMerger.mergeTables (CanonicalMerger.alignW w)
      (CanonicalMerger.alignE e)).map CanonicalMerger.renameBusiness)) with hFdef
  have hsorted := List.sorted_insertionSort (fun (a b : FinalRow) => a.dt ≤ b.dt)
    (F.map CanonicalMerger.selectFinal)
  have hperm : ((List.insertionSort (fun (a b : FinalRow) => a.dt ≤ b.dt)
      (F.map CanonicalMerger.selectFinal)).map (fun r : FinalRow => r.dt)).Perm
      ((F.map CanonicalMerger.selectFinal).map (fun r : FinalRow => r.dt)) :=
    (List.perm_insertionSort (fun (a b : FinalRow) => a.dt ≤ b.dt)
      (F.map CanonicalMerger.selectFinal)).map (fun r : FinalRow => r.dt)
  have hnd : ((List.insertionSort (fun (a b : FinalRow) => a.dt ≤ b.dt)
      (F.map CanonicalMerger.selectFinal)).map (fun r : FinalRow => r.dt)).Nodup := by
    rw [List.Perm.nodup_iff hperm, List.map_map]
    exact hF
  have hlt := pairwise_lt_of_le_nodup _
    (List.Pairwise.map (R := fun (a b : FinalRow) => a.dt ≤ b.dt)
      (S := fun (a b : Nat) => a ≤ b) (fun r : FinalRow => r.dt)
      (fun _ _ hab => hab) hsorted) hnd
  exact hlt.sublist ((List.filter_sublist _).map _)

/-- C1 amended witness: two distinct-datetime weather rows joined with two
distinct-datetime electricity rows give a strictly increasing canonical
datetime column. -/
theorem C1_amended_strictly_increasing_witness :
    (([0, 1] : List Nat).Nodup ∧
      ((CanonicalMerger.merge
        [{ dt := 0, temperature := some 20, humidity := some 50,
           precipitation := some 1, wind_speed := some 5, cloud_cover := some 50,
           source := "visual_crossing", query_date := "2024-01-01" },
         { dt := 1, temperature := some 21, humidity := some 51,
           precipitation := some 1, wind_speed := some 5, cloud_cover := some 50,
           source := "visual_crossing", query_date := "2024-01-01" }]
        [{ dt := 0, total_load := some 100, signal := "total_load",
           source := "electricity_maps", query_date := "2024-01-01" },
         { dt := 1, total_load := some 110, signal := "total_load",
           source := "electricity_maps", query_date := "2024-01-01" }]).map
        (·.dt)).Pairwise (· < ·)) := by
  refine ⟨by decide, ?_⟩
  exact C1_amended_strictly_increasing _ _ (by decide) (by decide)

/-! ## Lemmas about the pandas interpolation -/

theorem pdInterpolate_getD (limit : Nat) (xs : List (Option ℚ)) (i : Nat)
    (hi : i < xs.length) :
    (pdInterpolate limit xs).getD i none = pdInterpolateAt limit xs i := by
  unfold pdInterpolate
  rw [List.getD_eq_getElem?_getD, List.getElem?_map, List.getElem?_range hi]
  rfl

theorem lastValidIdx_eq (xs : List (Option ℚ)) (j : Nat) :
    ∀ i, j ≤ i → (xs.getD j none).isSome →
    (∀ m, j < m → m ≤ i → xs.getD m none = none) →
    lastValidIdx xs i = some j := by
  intro i
  induction i with
  | zero =>
    intro hj hsome _
    have : j = 0 := Nat.le_zero.mp hj
    subst this
    unfold lastValidIdx
    rw [if_pos hsome]
  | succ i ih =>
    intro hj hsome hmid
    by_cases hji : j = i + 1
    · subst hji
      unfold lastValidIdx
      rw [if_pos hsome]
    · have hji2 : j ≤ i := by omega
      have hnone : xs.getD (i + 1) none = none := hmid (i + 1) (by omega) le_rfl
      unfold lastValidIdx
      rw [hnone]
      exact ih hji2 hsome (fun m hm1 hm2 => hmid m hm1 (by omega))

theorem nextValidIdx_eq (xs : List (Option ℚ)) (k : Nat)
    (hk : (xs.getD k none).isSome) (hklen : k < xs.length) :
    ∀ d i, k - i = d → i ≤ k →
    (∀ m, i ≤ m → m < k → xs.getD m none = none) →
    nextValidIdx xs i = some k := by
  intro d
  induction d with
  | zero =>
    intro i hd hik _
    have : i = k := by omega
    subst this
    unfold nextValidIdx
    rw [dif_pos hklen, if_pos hk]
  | succ d ih =>
    intro i hd hik hmid
    have hilt : i < k := by omega
    have hnone : xs.getD i none = none := hmid i le_rfl hilt
    unfold nextValidIdx
    rw [dif_pos (by omega : i < xs.length)]
    rw [hnone]
    simp only [Option.isSome_none, Bool.false_eq_true, if_false]
    exact ih (i + 1) (by omega) (by omega) (fun m hm1 hm2 => hmid m (by omega) hm2)

theorem hasValidBetween_true (xs : List (Option ℚ)) (lo hi m : Nat)
    (h1 : lo ≤ m) (h2 : m ≤ hi) (h3 : m < xs.length)
    (h4 : (xs.getD m none).isSome) : hasValidBetween xs lo hi = true := by
  unfold hasValidBetween
  rw [List.any_eq_true]
  refine ⟨m, List.mem_range.mpr h3, ?_⟩
  rw [List.getD_eq_getElem?_getD] at h4
  simp [h1, h2, h4]

theorem hasValidBetween_false (xs : List (Option ℚ)) (lo hi : Nat)
    (h : ∀ m, lo ≤ m → m ≤ hi → m < xs.length → xs.getD m none = none) :
    hasValidBetween xs lo hi = false := by
  unfold hasValidBetween
  rw [List.any_eq_false]
  intro m hm
  rw [List.mem_range] at hm
  by_cases h1 : lo ≤ m
  · by_cases h2 : m ≤ hi
    · have hnone := h m h1 h2 hm
      rw [List.getD_eq_getElem?_getD] at hnone
      simp [h1, h2, hnone]
    · simp [h2]
  · simp [h1]

theorem ffillFrom_some_all (v : ℚ) :
    ∀ xs, ∀ y ∈ ffillFrom (some v) xs, y.isSome := by
  intro xs
  induction xs generalizing v with
  | nil => intro y hy; simp [ffillFrom] at hy
  | cons x rest ih =>
    intro y hy
    cases x with
    | none =>
      simp only [ffillFrom, List.mem_cons] at hy
      rcases hy with rfl | hy
      · rfl
      · exact ih v y hy
    | some w =>
      simp only [ffillFrom, List.mem_cons] at hy
      rcases hy with rfl | hy
      · rfl
      · exact ih w y hy

theorem ffillFrom_block_all (rest : List (Option ℚ)) :
    ∀ (zs : List (Option ℚ)) (acc : Option ℚ), (∀ y ∈ zs, y.isSome) → zs ≠ [] →
    ∀ y ∈ ffillFrom acc (zs ++ rest), y.isSome := by
  intro zs
  induction zs with
  | nil => intro acc _ hne; exact absurd rfl hne
  | cons z zs ih =>
    intro acc hall _ y hy
    cases z with
    | none =>
      have := hall none (List.mem_cons_self _ _)
      simp at this
    | some v =>
      simp only [List.cons_append, ffillFrom, List.mem_cons] at hy
      rcases hy with rfl | hy
      · rfl
      · cases zs with
        | nil => exact ffillFrom_some_all v rest y hy
        | cons z2 zs2 =>
          exact ih (some v) (fun u hu => hall u (List.mem_cons_of_mem _ hu))
            (by simp) y hy

theorem exists_some_decomp :
    ∀ (xs : List (Option ℚ)), (∃ x ∈ xs, x.isSome) →
    ∃ m v rest, xs = List.replicate m none ++ some v :: rest := by
  intro xs
  induction xs with
  | nil => intro ⟨x, hx, _⟩; simp at hx
  | cons x rest ih =>
    intro ⟨y, hy, hys⟩
    cases x with
    | some v => exact ⟨0, v, rest, rfl⟩
    | none =>
      rcases List.mem_cons.mp hy with rfl | hyr
      · simp at hys
      · obtain ⟨m, v, r2, hr⟩ := ih ⟨y, hyr, hys⟩
        exact ⟨m + 1, v, r2, by rw [List.replicate_succ, List.cons_append, hr]⟩

theorem ffill_replicate_none (m : Nat) (v : ℚ) (rest : List (Option ℚ)) :
    ffill (List.replicate m none ++ some v :: rest) =
      List.replicate m none ++ some v :: ffillFrom (some v) rest := by
  unfold ffill
  induction m with
  | zero => rfl
  | succ m ih =>
    rw [List.replicate_succ, List.cons_append, List.cons_append]
    show none :: ffillFrom none (List.replicate m none ++ some v :: rest) = _
    rw [ih]

theorem bfill_fills_all (m : Nat) (ys : List (Option ℚ))
    (hall : ∀ y ∈ ys, y.isSome) (hne : ys ≠ []) :
    ∀ y ∈ bfill (List.replicate m none ++ ys), y.isSome := by
  intro y hy
  unfold bfill at hy
  rw [List.mem_reverse] at hy
  rw [List.reverse_append, List.reverse_replicate] at hy
  exact ffillFrom_block_all (List.replicate m none) ys.reverse none
    (fun u hu => hall u (List.mem_reverse.mp hu)) (by simpa using hne) y hy

theorem imputeFill_all_some (xs : List (Option ℚ)) (hex : ∃ x ∈ xs, x.isSome) :
    ∀ y ∈ bfill (ffill xs), y.isSome := by
  obtain ⟨m, v, rest, rfl⟩ := exists_some_decomp xs hex
  rw [ffill_replicate_none]
  refine bfill_fills_all m (some v :: ffillFrom (some v) rest) ?_ (by simp)
  intro y hy
  rcases List.mem_cons.mp hy with rfl | hy2
  · rfl
  · exact ffillFrom_some_all v rest y hy2

theorem any_isNone_false_all_some (xs : List (Option ℚ))
    (h : xs.any (·.isNone) = false) : ∀ y ∈ xs, y.isSome := by
  rw [List.any_eq_false] at h
  intro y hy
  have := h y hy
  cases y with
  | none => simp at this
  | some v => rfl

theorem pdInterpolate_exists_some (limit : Nat) (xs : List (Option ℚ))
    (hex : ∃ x ∈ xs, x.isSome) : ∃ x ∈ pdInterpolate limit xs, x.isSome := by
  obtain ⟨x, hx, hxs⟩ := hex
  obtain ⟨i, hi, hxi⟩ := List.mem_iff_getElem.mp hx
  refine ⟨pdInterpolateAt limit xs i, ?_, ?_⟩
  · unfold pdInterpolate
    exact List.mem_map.mpr ⟨i, List.mem_range.mpr hi, rfl⟩
  · unfold pdInterpolateAt
    have : xs.getD i none = some (x.get hxs) := by
      rw [List.getD_eq_getElem?_getD, List.getElem?_eq_getElem hi, hxi]
      simp
    rw [this]
    rfl

theorem imputeCol_all_some (xs : List (Option ℚ)) (hex : ∃ x ∈ xs, x.isSome) :
    ∀ y ∈ imputeCol xs, y.isSome := by
  unfold imputeCol
  by_cases h : xs.any (·.isNone)
  · rw [if_pos h]
    exact imputeFill_all_some _ (pdInterpolate_exists_some 3 xs hex)
  · rw [if_neg h]
    exact any_isNone_false_all_some xs (by
      rcases hb : xs.any (·.isNone) with _ | _
      · rfl
      · exact absurd hb h)

/-- C3 amended: the two-tier imputation of `_impute_missing`, precisely.
Inside a maximal missing run strictly between valid anchors at positions
`j < k` with values `a` and `b`, the interpolation stage fills every cell
within 3 positions of either anchor with its exact linear interpolation
value, even when the run is longer than 3; a cell is left missing by that
stage only when it is more than 3 positions away from both anchors (so only
runs of 7 or more missing cells keep any missing cell).  Afterwards the
forward/backward-fill fallback of `imputeCol` leaves no missing cell in any
column that has at least one non-missing value. -/
theorem C3_amended_two_tier_imputation :
    (∀ (xs : List (Option ℚ)) (j k : Nat) (a b : ℚ),
      j < k → k < xs.length →
      xs.getD j none = some a → xs.getD k none = some b →
      (∀ m, j < m → m < k → xs.getD m none = none) →
      ∀ i, j < i → i < k →
        ((i - j ≤ 3 ∨ k - i ≤ 3) →
          (pdInterpolate 3 xs).getD i none =
            some (a + (b - a) * ((i : ℚ) - (j : ℚ)) / ((k : ℚ) - (j : ℚ)))) ∧
        (3 < i - j → 3 < k - i → (pdInterpolate 3 xs).getD i none = none)) ∧
    (∀ xs : List (Option ℚ), (∃ x ∈ xs, x.isSome) →
      ∀ y ∈ imputeCol xs, y.isSome) := by
  refine ⟨?_, imputeCol_all_some⟩
  intro xs j k a b hjk hklen hj hk hmid i hji hik
  have hilen : i < xs.length := lt_trans hik hklen
  have hiNone : xs.getD i none = none := hmid i hji hik
  have hlast : lastValidIdx xs i = some j :=
    lastValidIdx_eq xs j i (le_of_lt hji) (by rw [hj]; rfl)
      (fun m hm1 hm2 => hmid m hm1 (lt_of_le_of_lt hm2 hik))
  have hnext : nextValidIdx xs i = some k :=
    nextValidIdx_eq xs k (by rw [hk]; rfl) hklen (k - i) i rfl (le_of_lt hik)
      (fun m hm1 hm2 => hmid m (lt_of_lt_of_le hji hm1) hm2)
  constructor
  · intro hnear
    rw [pdInterpolate_getD 3 xs i hilen]
    unfold pdInterpolateAt
    rw [hiNone]
    have hcond : (!(hasValidBetween xs (i - 3) i) &&
        !(hasValidBetween xs i (i + 3))) = false := by
      rcases hnear with hn | hn
      · rw [hasValidBetween_true xs (i - 3) i j (by omega) (le_of_lt hji)
          (lt_trans hjk hklen) (by rw [hj]; rfl)]
        rfl
      · rw [hasValidBetween_true xs i (i + 3) k (le_of_lt hik) (by omega)
          hklen (by rw [hk]; rfl)]
        simp
    rw [hcond]
    simp only [Bool.false_eq_true, if_false]
    unfold npInterpAt
    rw [hlast, hnext]
    dsimp only
    rw [if_neg (show ¬ j = k by omega)]
    unfold validValAt
    rw [hj, hk]
    rfl
  · intro hfar1 hfar2
    rw [pdInterpolate_getD 3 xs i hilen]
    unfold pdInterpolateAt
    rw [hiNone]
    have hb1 : hasValidBetween xs (i - 3) i = false := by
      apply hasValidBetween_false
      intro m hm1 hm2 _
      exact hmid m (by omega) (lt_of_le_of_lt hm2 hik)
    have hb2 : hasValidBetween xs i (i + 3) = false := by
      apply hasValidBetween_false
      intro m hm1 hm2 _
      exact hmid m (lt_of_lt_of_le hji hm1) (by omega)
    rw [hb1, hb2]
    rfl

/-- C3 counterexample: a run of 4 consecutive missing values (longer than 3)
between the anchors 1 and 6 is fully filled by the linear interpolation
stage itself (limit=3 with limit_direction=both fills up to 3 cells from
each side, and the two sides cover the whole run), so the interpolated
values 2, 3, 4, 5 — not forward-filled copies of 1 — make up the imputed
column; the claim that such a run receives no interpolated values at that
stage is false. -/
theorem C3_counterexample :
    pdInterpolate 3 ([some 1, none, none, none, none, some 6] : List (Option ℚ)) =
      [some 1, some 2, some 3, some 4, some 5, some 6] ∧
    imputeCol ([some 1, none, none, none, none, some 6] : List (Option ℚ)) =
      [some 1, some 2, some 3, some 4, some 5, some 6] := by
  have h1 : pdInterpolateAt 3 ([some 1, none, none, none, none, some 6] : List (Option ℚ)) 1 = some 2 := by
    unfold pdInterpolateAt
    rw [show ([some 1, none, none, none, none, some 6] : List (Option ℚ)).getD 1 none = none from rfl]
    rw [show (!(hasValidBetween ([some 1, none, none, none, none, some 6] : List (Option ℚ)) (1 - 3) 1) &&
        !(hasValidBetween ([some 1, none, none, none, none, some 6] : List (Option ℚ)) 1 (1 + 3))) = false from by decide]
    simp only [Bool.false_eq_true, if_false]
    unfold npInterpAt
    rw [show lastValidIdx ([some 1, none, none, none, none, some 6] : List (Option ℚ)) 1 = some 0 from by decide,
      nextValidIdx_eq ([some 1, none, none, none, none, some 6] : List (Option ℚ)) 5 (by decide) (by decide) 4 1 rfl (by decide)
        (fun m hm1 hm2 => by interval_cases m <;> rfl)]
    dsimp only
    rw [if_neg (by decide : ¬ (0 : Nat) = 5)]
    unfold validValAt
    norm_num

  have h2 : pdInterpolateAt 3 ([some 1, none, none, none, none, some 6] : List (Option ℚ)) 2 = some 3 := by
    unfold pdInterpolateAt
    rw [show ([some 1, none, none, none, none, some 6] : List (Option ℚ)).getD 2 none = none from rfl]
    rw [show (!(hasValidBetween ([some 1, none, none, none, none, some 6] : List (Option ℚ)) (2 - 3) 2) &&
        !(hasValidBetween ([some 1, none, none, none, none, some 6] : List (Option ℚ)) 2 (2 + 3))) = false from by decide]
    simp only [Bool.false_eq_true, if_false]
    unfold npInterpAt
    rw [show lastValidIdx ([some 1, none, none, none, none, some 6] : List (Option ℚ)) 2 = some 0 from by decide,
      nextValidIdx_eq ([some 1, none, none, none, none, some 6] : List (Option ℚ)) 5 (by decide) (by decide) 3 2 rfl (by decide)
        (fun m hm1 hm2 => by interval_cases m <;> rfl)]
    dsimp only
    rw [if_neg (by decide : ¬ (0 : Nat) = 5)]
    unfold validValAt
    norm_num

  have h3 : pdInterpolateAt 3 ([some 1, none, none, none, none, some 6] : List (Option ℚ)) 3 = some 4 := by
    unfold pdInterpolateAt
    rw [show ([some 1, none, none, none, none, some 6] : List (Option ℚ)).getD 3 none = none from rfl]
    rw [show (!(hasValidBetween ([some 1, none, none, none, none, some 6] : List (Option ℚ)) (3 - 3) 3) &&
        !(hasValidBetween ([some 1, none, none, none, none, some 6] : List (Option ℚ)) 3 (3 + 3))) = false from by decide]
    simp only [Bool.false_eq_true, if_false]
    unfold npInterpAt
    rw [show lastValidIdx ([some 1, none, none, none, none, some 6] : List (Option ℚ)) 3 = some 0 from by decide,
      nextValidIdx_eq ([some 1, none, none, none, none, some 6] : List (Option ℚ)) 5 (by decide) (by decide) 2 3 rfl (by decide)
        (fun m hm1 hm2 => by interval_cases m <;> rfl)]
    dsimp only
    rw [if_neg (by decide : ¬ (0 : Nat) = 5)]
    unfold validValAt
    norm_num

  have h4 : pdInterpolateAt 3 ([some 1, none, none, none, none, some 6] : List (Option ℚ)) 4 = some 5 := by
    unfold pdInterpolateAt
    rw [show ([some 1, none, none, none, none, some 6] : List (Option ℚ)).getD 4 none = none from rfl]
    rw [show (!(hasValidBetween ([some 1, none, none, none, none, some 6] : List (Option ℚ)) (4 - 3) 4) &&
        !(hasValidBetween ([some 1, none, none, none, none, some 6] : List (Option ℚ)) 4 (4 + 3))) = false from by decide]
    simp only [Bool.false_eq_true, if_false]
    unfold npInterpAt
    rw [show lastValidIdx ([some 1, none, none, none, none, some 6] : List (Option ℚ)) 4 = some 0 from by decide,
      nextValidIdx_eq ([some 1, none, none, none, none, some 6] : List (Option ℚ)) 5 (by decide) (by decide) 1 4 rfl (by decide)
        (fun m hm1 hm2 => by interval_cases m; rfl)]
    dsimp only
    rw [if_neg (by decide : ¬ (0 : Nat) = 5)]
    unfold validValAt
    norm_num

  have hfull : pdInterpolate 3 ([some 1, none, none, none, none, some 6] : List (Option ℚ)) =
      [some 1, some 2, some 3, some 4, some 5, some 6] := by
    unfold pdInterpolate
    rw [show ([some 1, none, none, none, none, some 6] : List (Option ℚ)).length = 6 from rfl, show List.range 6 = [0, 1, 2, 3, 4, 5] from rfl]
    simp only [List.map_cons, List.map_nil]
    rw [h1, h2, h3, h4]
    rfl
  refine ⟨hfull, ?_⟩
  unfold imputeCol
  rw [if_pos (by decide)]
  rw [hfull]
  rfl

/-- C3 amended witness: in the 4-cell run between anchors at positions 0 and
5 with values 1 and 6, the interpolation stage fills position 1 (distance 1
from the left anchor) with the exact linear value, and the full imputation
leaves no missing cell in the column. -/
theorem C3_amended_two_tier_imputation_witness :
    ((0 : Nat) < 5 ∧
      (5 : Nat) < ([some 1, none, none, none, none, some 6] : List (Option ℚ)).length ∧
      (pdInterpolate 3 ([some 1, none, none, none, none, some 6] :
          List (Option ℚ))).getD 1 none =
        some (1 + (6 - 1) * ((1 : ℚ) - 0) / ((5 : ℚ) - 0))) ∧
    (∀ y ∈ imputeCol ([some 1, none, none, none, none, some 6] : List (Option ℚ)),
      y.isSome) := by
  constructor
  · refine ⟨by decide, by decide, ?_⟩
    exact (C3_amended_two_tier_imputation.1
      ([some 1, none, none, none, none, some 6] : List (Option ℚ)) 0 5 1 6
      (by decide) (by decide) rfl rfl
      (fun m hm1 hm2 => by interval_cases m <;> rfl) 1 (by decide) (by decide)).1
      (Or.inl (by decide))
  · exact C3_amended_two_tier_imputation.2 _ ⟨some 1, by simp, rfl⟩

/-! ## Lemmas about the feature strategy -/

theorem mapRange_getD (f : Nat → Option ℚ) (n i : Nat) (hi : i < n) :
    ((List.range n).map f).getD i none = f i := by
  rw [List.getD_eq_getElem _ _ (by simpa using hi), List.getElem_map, List.getElem_range]

theorem colOk_base (n : Nat) (c : List (Option ℚ)) (hlen : c.length = n)
    (hall : ∀ x ∈ c, x.isSome) : colOk n 0 c := by
  refine ⟨hlen, fun i hi => ?_⟩
  simp only [Nat.zero_le, iff_true]
  rw [List.getD_eq_getElem _ _ (by omega)]
  exact hall _ (List.getElem_mem _)

theorem colOk_time (dts : List DT) (g : DT → ℚ) :
    colOk dts.length 0 (dts.map (fun t => some (g t))) := by
  refine ⟨by simp, fun i hi => ?_⟩
  simp only [Nat.zero_le, iff_true]
  rw [List.getD_eq_getElem _ _ (by simpa using hi), List.getElem_map]
  rfl

theorem colOk_shift (n L : Nat) (c : List (Option ℚ)) (hc : colOk n 0 c) :
    colOk n L (shiftCol L c) := by
  obtain ⟨hlen, hall⟩ := hc
  constructor
  · unfold shiftCol
    rw [List.length_take, List.length_append, List.length_replicate]
    omega
  · intro i hi
    unfold shiftCol
    rw [List.getD_eq_getElem?_getD, List.getElem?_take, if_pos (by omega),
      List.getElem?_append]
    rw [List.length_replicate]
    by_cases hiL : i < L
    · rw [if_pos hiL, List.getElem?_replicate, if_pos hiL]
      simp only [Option.getD_some, Option.isSome_none, Bool.false_eq_true, false_iff]
      omega
    · rw [if_neg hiL]
      have hmem : i - L < c.length := by omega
      rw [List.getElem?_eq_getElem hmem]
      simp only [Option.getD_some]
      have := (hall (i - L) (by omega)).mpr (Nat.zero_le _)
      rw [List.getD_eq_getElem _ _ hmem] at this
      simp only [this, true_iff]
      omega

theorem window_all_some (c : List (Option ℚ)) (hall : ∀ x ∈ c, x.isSome)
    (a b : Nat) : ((c.take a).drop b).all (·.isSome) = true := by
  rw [List.all_eq_true]
  intro x hx
  exact hall x (List.mem_of_mem_take (List.mem_of_mem_drop hx))

theorem colOk_rollingMean (n w : Nat) (c : List (Option ℚ)) (hc : colOk n 0 c) :
    colOk n (w - 1) (rollingMean w c) := by
  obtain ⟨hlen, hall⟩ := hc
  have hallm : ∀ x ∈ c, x.isSome := by
    intro x hx
    obtain ⟨i, hi, rfl⟩ := List.mem_iff_getElem.mp hx
    have := (hall i (by omega)).mpr (Nat.zero_le _)
    rwa [List.getD_eq_getElem _ _ hi] at this
  constructor
  · unfold rollingMean
    rw [List.length_map, List.length_range, hlen]
  · intro i hi
    unfold rollingMean
    rw [hlen] at *
    rw [mapRange_getD _ n i hi]
    by_cases hw : w ≤ i + 1
    · rw [if_pos hw]
      simp only [window_all_some c hallm (i + 1) (i + 1 - w), if_true,
        Option.isSome_some, true_iff]
      omega
    · rw [if_neg hw]
      simp only [Option.isSome_none, Bool.false_eq_true, false_iff]
      omega

theorem colOk_rollingStd (n w : Nat) (sq : ℚ → ℚ) (hw : 2 ≤ w)
    (c : List (Option ℚ)) (hc : colOk n 0 c) :
    colOk n (w - 1) (rollingStd sq w c) := by
  obtain ⟨hlen, hall⟩ := hc
  have hallm : ∀ x ∈ c, x.isSome := by
    intro x hx
    obtain ⟨i, hi, rfl⟩ := List.mem_iff_getElem.mp hx
    have := (hall i (by omega)).mpr (Nat.zero_le _)
    rwa [List.getD_eq_getElem _ _ hi] at this
  constructor
  · unfold rollingStd
    rw [List.length_map, List.length_range, hlen]
  · intro i hi
    unfold rollingStd
    rw [hlen] at *
    rw [mapRange_getD _ n i hi]
    by_cases hwi : w ≤ i + 1
    · rw [if_pos ⟨hw, hwi⟩]
      simp only [window_all_some c hallm (i + 1) (i + 1 - w), if_true,
        Option.isSome_some, true_iff]
      omega
    · rw [if_neg (by omega : ¬(2 ≤ w ∧ w ≤ i + 1))]
      simp only [Option.isSome_none, Bool.false_eq_true, false_iff]
      omega

theorem le_maxNat (x : Nat) : ∀ {l : List Nat}, x ∈ l → x ≤ maxNat l := by
  intro l
  induction l with
  | nil => intro h; cases h
  | cons a t ih =>
    intro hx
    rcases List.mem_cons.mp hx with rfl | h
    · exact Nat.le_max_left _ _
    · exact le_trans (ih h) (Nat.le_max_right _ _)

theorem filter_ge_range (T : Nat) : ∀ n, (List.range n).filter (fun i => T ≤ i) =
    (List.range (n - T)).map (fun j => T + j) := by
  intro n
  induction n with
  | zero => simp
  | succ n ih =>
    rw [List.range_succ n, List.filter_append, ih]
    by_cases h : T ≤ n
    · rw [show n + 1 - T = (n - T) + 1 from by omega, List.range_succ, List.map_append]
      congr 1
      simp only [List.filter_cons, List.filter_nil, List.map_cons, List.map_nil]
      rw [if_pos (decide_eq_true h)]
      have hTn : T + (n - T) = n := by omega
      rw [hTn]
    · rw [show n + 1 - T = n - T from by omega]
      simp only [List.filter_cons, List.filter_nil]
      rw [if_neg (by simpa using h)]
      simp

theorem map_range_getD_self {α : Type} (l : List α) (d : α) :
    (List.range l.length).map (fun i => l.getD i d) = l := by
  apply List.ext_getElem
  · simp
  · intro i h1 h2
    simp only [List.getElem_map, List.getElem_range]
    exact List.getD_eq_getElem l d h2

theorem keep_map_getD {α : Type} (l : List α) (d : α) (T : Nat) :
    ((List.range l.length).filter (fun i => T ≤ i)).map (fun i => l.getD i d) =
      l.drop T := by
  have key : ∀ j, (l.drop T).getD j d = l.getD (T + j) d := fun j => by
    rw [List.getD_eq_getElem?_getD, List.getD_eq_getElem?_getD, List.getElem?_drop]
  rw [filter_ge_range, List.map_map]
  conv_rhs => rw [← map_range_getD_self (l.drop T) d]
  rw [List.length_drop]
  exact List.map_congr_left (fun j _ => (key j).symm)

theorem dropnaKeep_length_ge (cols : List (String × List (Option ℚ))) (n T : Nat)
    (hall : ∀ c ∈ cols, ∃ t, t ≤ T ∧ colOk n t c.2) :
    n - T ≤ (dropnaKeep cols n).length := by
  unfold dropnaKeep
  have h1 : ((List.range n).filter (fun i => T ≤ i)).length = n - T := by
    rw [filter_ge_range, List.length_map, List.length_range]
  rw [← h1, ← List.countP_eq_length_filter, ← List.countP_eq_length_filter]
  apply List.countP_mono_left
  intro i hi hTi
  rw [List.mem_range] at hi
  rw [List.all_eq_true]
  intro c hc
  obtain ⟨t, htT, _, hsome⟩ := hall c hc
  exact (hsome i hi).mpr (le_trans htT (of_decide_eq_true hTi))

theorem dropnaKeep_eq (cols : List (String × List (Option ℚ))) (n T : Nat)
    (hall : ∀ c ∈ cols, ∃ t, t ≤ T ∧ colOk n t c.2)
    (hex : ∃ c ∈ cols, colOk n T c.2) :
    dropnaKeep cols n = (List.range n).filter (fun i => T ≤ i) := by
  unfold dropnaKeep
  apply List.filter_congr
  intro i hi
  rw [List.mem_range] at hi
  by_cases hT : T ≤ i
  · rw [decide_eq_true hT]
    rw [List.all_eq_true]
    intro c hc
    obtain ⟨t, htT, _, hsome⟩ := hall c hc
    exact (hsome i hi).mpr (le_trans htT hT)
  · rw [decide_eq_false hT]
    rw [List.all_eq_false]
    obtain ⟨c, hc, _, hsome⟩ := hex
    refine ⟨c, hc, ?_⟩
    intro habs
    exact hT ((hsome i hi).mp habs)

theorem featBase_colOk (sinQ cosQ : Nat → ℚ) (f : Frame) (n : Nat)
    (hn : f.datetime.length = n) (hcols : ∀ c ∈ f.cols, colOk n 0 c.2) :
    ∀ c ∈ featBase sinQ cosQ f, colOk n 0 c.2 := by
  intro c hc
  unfold featBase at hc
  rcases List.mem_append.mp hc with h | h
  · exact hcols c h
  · subst hn
    unfold timeFeatureCols at h
    simp only [List.mem_cons, List.not_mem_nil, or_false] at h
    rcases h with rfl | rfl | rfl | rfl | rfl | rfl | rfl
    · exact colOk_time f.datetime (fun t => (t.hour : ℚ))
    · exact colOk_time f.datetime (fun t => (t.dayOfWeek : ℚ))
    · exact colOk_time f.datetime (fun t => (t.day : ℚ))
    · exact colOk_time f.datetime (fun t => (t.month : ℚ))
    · exact colOk_time f.datetime
        (fun t => if t.dayOfWeek = 5 ∨ t.dayOfWeek = 6 then (1 : ℚ) else 0)
    · exact colOk_time f.datetime (fun t => sinQ t.hour)
    · exact colOk_time f.datetime (fun t => cosQ t.hour)

theorem featAll_colOk (sinQ cosQ : Nat → ℚ) (sq : ℚ → ℚ) (cfg : XgbConfig) (f : Frame)
    (n : Nat) (hn : f.datetime.length = n) (hcols : ∀ c ∈ f.cols, colOk n 0 c.2)
    (hw2 : ∀ w ∈ cfg.rolling_windows, 2 ≤ w) :
    ∀ c ∈ featAll sinQ cosQ sq cfg f,
      ∃ t, t ≤ max (maxNat cfg.lag_periods) (maxNat cfg.rolling_windows) ∧ colOk n t c.2 := by
  have hbase := featBase_colOk sinQ cosQ f n hn hcols
  intro c hc
  unfold featAll at hc
  rcases List.mem_append.mp hc with h | h
  · rcases List.mem_append.mp h with h0 | hlag
    · exact ⟨0, Nat.zero_le _, hbase c h0⟩
    · rw [List.mem_flatMap] at hlag
      obtain ⟨c0, hc0, hmem⟩ := hlag
      rw [List.mem_map] at hmem
      obtain ⟨lag, hlagmem, rfl⟩ := hmem
      exact ⟨lag, le_trans (le_maxNat lag hlagmem) (Nat.le_max_left _ _),
        colOk_shift n lag c0.2 (hbase c0 hc0)⟩
  · rw [List.mem_flatMap] at h
    obtain ⟨c0, hc0, hmem⟩ := h
    rw [List.mem_flatMap] at hmem
    obtain ⟨w, hwmem, hmem2⟩ := hmem
    have hwle : w - 1 ≤ max (maxNat cfg.lag_periods) (maxNat cfg.rolling_windows) :=
      le_trans (le_trans (Nat.sub_le w 1) (le_maxNat w hwmem)) (Nat.le_max_right _ _)
    simp only [List.mem_cons, List.not_mem_nil, or_false] at hmem2
    rcases hmem2 with rfl | rfl
    · exact ⟨w - 1, hwle, colOk_rollingMean n w c0.2 (hbase c0 hc0)⟩
    · exact ⟨w - 1, hwle, colOk_rollingStd n w sq (hw2 w hwmem) c0.2 (hbase c0 hc0)⟩

theorem create_features_eq (sinQ cosQ : Nat → ℚ) (sq : ℚ → ℚ) (cfg : XgbConfig) (f : Frame)
    (hpos : f.datetime.length ≠ 0)
    (hlags : cfg.create_lags = true) (hroll : cfg.create_rolling = true)
    (hint : cfg.create_interactions = false) :
    XGBoostFeatureStrategy.create_features sinQ cosQ sq cfg f =
      .ok (Frame.dropna { datetime := f.datetime, cols := featAll sinQ cosQ sq cfg f }) := by
  unfold XGBoostFeatureStrategy.create_features featAll featBase
  rw [if_neg hpos]
  simp only [hlags, hroll, hint, if_true, Bool.false_eq_true, if_false]

/-- C7: for every input frame with `n` rows and no missing values, with lag
and rolling creation on (every window at least 2, as in the defaults, so the
sample standard deviation is defined) and interactions off,
`XGBoostFeatureStrategy.create_features` succeeds and the dropna-purged
feature table keeps at least
`n - max (max lag_periods) (max rolling_windows)` rows; with the default lag
periods `[1, 2, 3, 24, 168]` and windows `[3, 6, 12, 24]` exactly the first
168 rows are dropped: the output datetime column is the input one with its
first 168 entries removed. -/
theorem C7_feature_row_count (sinQ cosQ : Nat → ℚ) (sq : ℚ → ℚ) (cfg : XgbConfig)
    (f : Frame) (n : Nat) (hn : f.datetime.length = n) (hpos : 0 < n)
    (hcols : ∀ c ∈ f.cols, colOk n 0 c.2)
    (hlags : cfg.create_lags = true) (hroll : cfg.create_rolling = true)
    (hint : cfg.create_interactions = false)
    (hw2 : ∀ w ∈ cfg.rolling_windows, 2 ≤ w) :
    ∃ g, XGBoostFeatureStrategy.create_features sinQ cosQ sq cfg f = .ok g ∧
      n - max (maxNat cfg.lag_periods) (maxNat cfg.rolling_windows) ≤ g.datetime.length ∧
      (cfg.lag_periods = [1, 2, 3, 24, 168] → cfg.rolling_windows = [3, 6, 12, 24] →
        g.datetime = f.datetime.drop 168) := by
  have hne : f.datetime.length ≠ 0 := by omega
  have hall := featAll_colOk sinQ cosQ sq cfg f n hn hcols hw2
  refine ⟨_, create_features_eq sinQ cosQ sq cfg f hne hlags hroll hint, ?_, ?_⟩
  · simp only [Frame.dropna, List.length_map]
    rw [hn]
    exact dropnaKeep_length_ge _ n _ hall
  · intro hL hW
    simp only [Frame.dropna]
    rw [hn]
    have hmax : max (maxNat cfg.lag_periods) (maxNat cfg.rolling_windows) = 168 := by
      rw [hL, hW]
      decide
    rw [hmax] at hall
    have hex : ∃ c ∈ featAll sinQ cosQ sq cfg f, colOk n 168 c.2 := by
      refine ⟨("hour" ++ "_lag_" ++ natStr 168,
        shiftCol 168 (f.datetime.map (fun t => some (t.hour : ℚ)))), ?_, ?_⟩
      · unfold featAll
        apply List.mem_append.mpr
        left
        apply List.mem_append.mpr
        right
        rw [List.mem_flatMap]
        refine ⟨("hour", f.datetime.map (fun t => some (t.hour : ℚ))), ?_, ?_⟩
        · unfold featBase
          apply List.mem_append.mpr
          right
          unfold timeFeatureCols
          exact List.mem_cons_self _ _
        · rw [hL, List.mem_map]
          exact ⟨168, by decide, rfl⟩
      · refine colOk_shift n 168 _ ?_
        have := colOk_time f.datetime (fun t => (t.hour : ℚ))
        rwa [hn] at this
    rw [dropnaKeep_eq _ n 168 hall hex]
    have := keep_map_getD f.datetime ⟨0, 0, 0, 0⟩ 168
    rwa [hn] at this

theorem C7_feature_row_count_witness :
    ∃ g, XGBoostFeatureStrategy.create_features (fun _ => 0) (fun _ => 0) (fun _ => 0) {}
        { datetime := [⟨2024, 1, 1, 0⟩, ⟨2024, 1, 1, 1⟩, ⟨2024, 1, 1, 2⟩],
          cols := [("electricity_demand", [some 100, some 101, some 102]),
                   ("temperature", [some 25, some 26, some 27])] } = .ok g ∧
      3 - max (maxNat ({} : XgbConfig).lag_periods) (maxNat ({} : XgbConfig).rolling_windows)
        ≤ g.datetime.length ∧
      (({} : XgbConfig).lag_periods = [1, 2, 3, 24, 168] →
        ({} : XgbConfig).rolling_windows = [3, 6, 12, 24] →
        g.datetime = ([⟨2024, 1, 1, 0⟩, ⟨2024, 1, 1, 1⟩, ⟨2024, 1, 1, 2⟩] : List DT).drop 168) :=
  C7_feature_row_count (fun _ => 0) (fun _ => 0) (fun _ => 0) {}
    { datetime := [⟨2024, 1, 1, 0⟩, ⟨2024, 1, 1, 1⟩, ⟨2024, 1, 1, 2⟩],
      cols := [("electricity_demand", [some 100, some 101, some 102]),
               ("temperature", [some 25, some 26, some 27])] }
    3 rfl (by decide)
    (by
      intro c hc
      simp only [List.mem_cons, List.not_mem_nil, or_false] at hc
      rcases hc with rfl | rfl <;> exact ⟨rfl, by decide⟩)
    rfl rfl rfl (by decide)
